import Mathlib

/-!
Verification of the pecs-go entity component system core.

The Go sources are shallowly embedded: each Go function becomes a Lean
function over explicit state values.  Machine integers (`uint32`, `int32`,
`int`) are modelled as `Nat` / `Int`; Go slices become `List`s, with
out-of-range reads totalized by `List.getD` (the Go program would panic
there; all verified statements stay within bounds or carry the
well-formedness hypotheses that rule such reads out).  Go's `map` types are
modelled as association lists in insertion order; the only map operations
the verified code paths use are lookup, insert and value iteration over
independent entries, for which the association-list refinement is faithful.
-/

set_option maxRecDepth 4000

/-! ## Entity encoding (ecs/entity.go)

`Entity` is a `uint32` packing a 20-bit index and a 12-bit generation.
We model it as a `Nat`; every value the embedded operations construct is
below `2^32`. -/

abbrev Entity := Nat

def EntityIndexBits : Nat := 20

def EntityIndexMask : Nat := 2 ^ 20 - 1

def EntityGenMask : Nat := 2 ^ 12 - 1

/-- `NullEntity = 0xFFFFFFFF`, the invalid-entity sentinel. -/
def NullEntity : Entity := 4294967295

/-- `Entity.Index`: the low 20 bits.  `e & EntityIndexMask = e % 2^20`. -/
def eIndex (e : Entity) : Nat := e % 2 ^ 20

/-- `Entity.Generation`: bits 20..31. -/
def eGen (e : Entity) : Nat := (e / 2 ^ 20) % 2 ^ 12

/-- `Entity.IsValid`: not the null sentinel. -/
def eValid (e : Entity) : Bool := e != NullEntity

/-- `makeEntity`: `(generation & genMask) << 20 | (index & indexMask)`.
Since the masked index is below `2^20`, the bitwise or is addition. -/
def makeEntity (index generation : Nat) : Entity :=
  (generation % 2 ^ 12) * 2 ^ 20 + index % 2 ^ 20

/-! ## EntityManager (ecs/entity.go)

`entities[index]` stores the generation of the live entity at `index`, or a
free-list link while `index` is free; `freeHead` is the head of the free
list (`-1` when empty). -/

structure EntityManager where
  entities : List Nat
  freeHead : Int
  deriving DecidableEq

def EntityManager.new : EntityManager := ⟨[], -1⟩

/-- `EntityManager.Create`: pop the free list if non-empty (resetting the
generation to 0, as the Go code does), else append a fresh slot. -/
def EntityManager.create (em : EntityManager) : Entity × EntityManager :=
  if 0 ≤ em.freeHead then
    let index := em.freeHead.toNat
    let stored := em.entities.getD index 0
    let newHead : Int := if stored == index then -1 else (stored : Int)
    (makeEntity index 0, ⟨em.entities.set index 0, newHead⟩)
  else
    (makeEntity em.entities.length 0, ⟨em.entities ++ [0], em.freeHead⟩)

/-- `EntityManager.Destroy`: reject null / out-of-range / stale handles,
else push the index on the free list (storing the previous head, or a
self-link, in the slot). -/
def EntityManager.destroy (em : EntityManager) (e : Entity) :
    Bool × EntityManager :=
  if eValid e = false then (false, em)
  else if em.entities.length ≤ eIndex e then (false, em)
  else if em.entities.getD (eIndex e) 0 ≠ eGen e then (false, em)
  else
    let newVal := if 0 ≤ em.freeHead then em.freeHead.toNat else eIndex e
    (true, ⟨em.entities.set (eIndex e) newVal, ((eIndex e) : Int)⟩)

/-- `EntityManager.IsValid`: in range and the stored generation matches. -/
def EntityManager.isValid (em : EntityManager) (e : Entity) : Bool :=
  eValid e && decide (eIndex e < em.entities.length) &&
    (em.entities.getD (eIndex e) 0 == eGen e)

/-- `EntityManager.Clear`. -/
def EntityManager.clear (_ : EntityManager) : EntityManager := ⟨[], -1⟩

/-! ## SparseSet (ecs/sparse_set.go)

`sparse[entityIndex]` is the dense position of the entity whose index is
`entityIndex` (`-1` when absent); `dense[0..size)` is the packed entity
array. -/

structure SparseSet where
  sparse : List Int
  dense : List Entity
  size : Nat
  deriving DecidableEq

def SparseSet.new : SparseSet := ⟨[], [], 0⟩

/-- `ensureCapacity`: grow `sparse` to cover `entityIndex`, new slots `-1`. -/
def SparseSet.ensureCapacity (s : SparseSet) (entityIndex : Nat) : SparseSet :=
  if s.sparse.length < entityIndex + 1 then
    { s with sparse :=
        s.sparse ++ List.replicate (entityIndex + 1 - s.sparse.length) (-1) }
  else s

/-- `SparseSet.Contains`: valid handle, in-range sparse slot holding a dense
position below `size` whose dense entry equals the handle exactly. -/
def SparseSet.contains (s : SparseSet) (e : Entity) : Bool :=
  eValid e && decide (eIndex e < s.sparse.length) &&
    (decide (0 ≤ s.sparse.getD (eIndex e) (-1)) &&
     decide (s.sparse.getD (eIndex e) (-1) < (s.size : Int)) &&
     (s.dense.getD (s.sparse.getD (eIndex e) (-1)).toNat NullEntity == e))

/-- `SparseSet.Insert`.  Note the Go code grows the sparse array before the
containment check, so a failed insert can still have grown capacity. -/
def SparseSet.insert (s : SparseSet) (e : Entity) : Bool × SparseSet :=
  if eValid e = false then (false, s)
  else if (s.ensureCapacity (eIndex e)).contains e then
    (false, s.ensureCapacity (eIndex e))
  else
    (true,
      { sparse := (s.ensureCapacity (eIndex e)).sparse.set (eIndex e)
          (((s.ensureCapacity (eIndex e)).size : Int)),
        dense :=
          if (s.ensureCapacity (eIndex e)).dense.length ≤
              (s.ensureCapacity (eIndex e)).size then
            (s.ensureCapacity (eIndex e)).dense ++ [e]
          else (s.ensureCapacity (eIndex e)).dense.set
            (s.ensureCapacity (eIndex e)).size e,
        size := (s.ensureCapacity (eIndex e)).size + 1 })

/-- `SparseSet.Remove`: swap-and-pop.  When the removed entity is not the
last dense element, the last entity is moved into its slot and that
entity's sparse entry is repointed; the removed entity's sparse slot then
becomes `-1` and `size` drops by one. -/
def SparseSet.remove (s : SparseSet) (e : Entity) : Bool × SparseSet :=
  if s.contains e = false then (false, s)
  else if s.sparse.getD (eIndex e) (-1) ≠ ((s.size - 1 : Nat) : Int) then
    (true,
      { sparse := (s.sparse.set
            (eIndex (s.dense.getD (s.size - 1) NullEntity))
            (s.sparse.getD (eIndex e) (-1))).set (eIndex e) (-1),
        dense := s.dense.set (s.sparse.getD (eIndex e) (-1)).toNat
            (s.dense.getD (s.size - 1) NullEntity),
        size := s.size - 1 })
  else
    (true, { s with sparse := s.sparse.set (eIndex e) (-1),
                    size := s.size - 1 })

/-- `SparseSet.Clear`: zero the size, reset every sparse slot to `-1`. -/
def SparseSet.clear (s : SparseSet) : SparseSet :=
  { s with size := 0, sparse := s.sparse.map (fun _ => -1) }

/-- `SparseSet.Data`: `dense[:size]`. -/
def SparseSet.data (s : SparseSet) : List Entity := s.dense.take s.size

/-- `SparseSet.At`: `NullEntity` out of `[0, size)`, else the dense entry. -/
def SparseSet.atIdx (s : SparseSet) (index : Int) : Entity :=
  if index < 0 ∨ (s.size : Int) ≤ index then NullEntity
  else s.dense.getD index.toNat NullEntity

/-- `SparseSet.Index`: dense position of `e`, `-1` when absent. -/
def SparseSet.indexOf (s : SparseSet) (e : Entity) : Int :=
  if s.contains e = false then -1 else s.sparse.getD (eIndex e) (-1)

/-- `SparseSet.Swap`: bounds-checked swap of two dense slots, repointing
both sparse entries. -/
def SparseSet.swap (s : SparseSet) (i j : Int) : SparseSet :=
  if i < 0 ∨ (s.size : Int) ≤ i ∨ j < 0 ∨ (s.size : Int) ≤ j then s
  else
    let entityI := s.dense.getD i.toNat NullEntity
    let entityJ := s.dense.getD j.toNat NullEntity
    { s with
      dense := (s.dense.set i.toNat entityJ).set j.toNat entityI,
      sparse := (s.sparse.set (eIndex entityI) j).set (eIndex entityJ) i }

/-- One comparison of the bubble sort in `SparseSet.Sort`: swap dense slots
`j` and `j+1` when out of order. -/
def SparseSet.sortStep (less : Entity → Entity → Bool) (s : SparseSet)
    (j : Nat) : SparseSet :=
  if less (s.dense.getD (j + 1) NullEntity) (s.dense.getD j NullEntity) then
    s.swap ((j : Int)) ((j + 1 : Nat) : Int)
  else s

/-- `SparseSet.Sort`: bubble sort over the dense array (the element count is
unchanged by each swap, so the loop bounds are those of the initial state). -/
def SparseSet.sortAll (s : SparseSet) (less : Entity → Entity → Bool) :
    SparseSet :=
  (List.range (s.size - 1)).foldl
    (fun t i => (List.range (t.size - i - 1)).foldl (SparseSet.sortStep less) t)
    s

/-- The reordered entity list `Respect` builds (`newDense` in the Go
code): the entities of `other` (in `other`'s order) that this set
contains, then the remaining entities of this set in their old order,
deduplicated against what has been collected. -/
def newDense (s other : SparseSet) : List Entity :=
  s.data.foldl (fun acc e => if acc.contains e then acc else acc ++ [e])
    (other.data.filter (fun e => s.contains e))

/-- `SparseSet.Respect`: reorder the dense array to `newDense`'s order and
re-derive the sparse entries of the reordered part.  `copy` into
`dense[:len(newDense)]` is modelled by overwriting the corresponding
prefix. -/
def SparseSet.respect (s other : SparseSet) : SparseSet :=
  if other.size = 0 then s
  else
    { s with
      dense := (newDense s other).take s.dense.length ++
        s.dense.drop (newDense s other).length,
      sparse := (newDense s other).enum.foldl
        (fun sp p => sp.set (eIndex p.2) ((p.1 : Int))) s.sparse }

/-! ## ComponentPool (ecs/component_storage.go)

A sparse set of entities plus the co-indexed component value array. -/

structure ComponentPool (α : Type) where
  entities : SparseSet
  components : List α
  deriving DecidableEq

def ComponentPool.new : ComponentPool α := ⟨SparseSet.new, []⟩

/-- `ComponentPool.Insert`: upsert.  On a fresh insert the value array grows
(or overwrites a stale tail slot) at the new dense position. -/
def ComponentPool.insert (cp : ComponentPool α) (e : Entity) (v : α) :
    ComponentPool α :=
  if cp.entities.contains e then
    { cp with components := cp.components.set (cp.entities.indexOf e).toNat v }
  else
    let r := cp.entities.insert e
    if r.1 then
      { entities := r.2,
        components :=
          if cp.components.length ≤ r.2.size - 1 then cp.components ++ [v]
          else cp.components.set (r.2.size - 1) v }
    else { cp with entities := r.2 }

/-- The value-array move of `ComponentPool.Remove`: copy the last slot's
value into the removed position unless the removed position is the last
one. -/
def removeComps {α : Type} (comps : List α) (index lastIndex : Nat) :
    List α :=
  if index ≠ lastIndex then
    match comps.get? lastIndex with
    | some lastVal => comps.set index lastVal
    | none => comps
  else comps

/-- `ComponentPool.Remove`: move the last component value into the removed
slot (unless the removed entity is last), then delegate to the sparse set's
swap-and-pop. -/
def ComponentPool.remove (cp : ComponentPool α) (e : Entity) :
    Bool × ComponentPool α :=
  if cp.entities.contains e = false then (false, cp)
  else
    ((cp.entities.remove e).1,
      { entities := (cp.entities.remove e).2,
        components := removeComps cp.components
          (cp.entities.indexOf e).toNat (cp.entities.size - 1) })

/-- `ComponentPool.Get`: the found flag becomes `Option`. -/
def ComponentPool.get (cp : ComponentPool α) (e : Entity) : Option α :=
  if cp.entities.contains e then
    cp.components.get? (cp.entities.indexOf e).toNat
  else none

/-! ## ComponentRegistry (ecs/component_storage.go)

Component types are abstracted to `Nat` keys (Go keys the maps by
`reflect.Type`; the claims only need that distinct types are distinct
keys).  The registry's Go maps become association lists in insertion
order; the `idToType` and `names` maps are diagnostic only and are not
consulted by any embedded operation, so they are omitted. -/

structure ComponentRegistry (α : Type) where
  nextID : Nat
  typeToID : List (Nat × Nat)
  storages : List (Nat × ComponentPool α)
  deriving DecidableEq

def ComponentRegistry.new : ComponentRegistry α := ⟨0, [], []⟩

/-- `Register[T]`: return the existing ID, or assign `nextID`, bump it, and
create the empty storage. -/
def ComponentRegistry.register (cr : ComponentRegistry α) (t : Nat) :
    Nat × ComponentRegistry α :=
  match cr.typeToID.lookup t with
  | some id => (id, cr)
  | none =>
      (cr.nextID,
        { nextID := cr.nextID + 1,
          typeToID := cr.typeToID ++ [(t, cr.nextID)],
          storages := cr.storages ++ [(cr.nextID, ComponentPool.new)] })

/-- `GetStorageByID`. -/
def ComponentRegistry.getStorageByID (cr : ComponentRegistry α) (id : Nat) :
    Option (ComponentPool α) :=
  cr.storages.lookup id

/-- `GetStorage[T]` = `GetComponentID` then the storage lookup. -/
def ComponentRegistry.getStorage (cr : ComponentRegistry α) (t : Nat) :
    Option (ComponentPool α) :=
  match cr.typeToID.lookup t with
  | some id => cr.storages.lookup id
  | none => none

/-- Write-back of an in-place mutation of the pool stored at `id` (Go
mutates the pool through its pointer). -/
def ComponentRegistry.setStorageByID (cr : ComponentRegistry α) (id : Nat)
    (p : ComponentPool α) : ComponentRegistry α :=
  { cr with storages := cr.storages.map (fun q => if q.1 == id then (q.1, p) else q) }

/-- `RemoveAllComponents`: remove `e` from every registered storage. -/
def ComponentRegistry.removeAllComponents (cr : ComponentRegistry α)
    (e : Entity) : ComponentRegistry α :=
  { cr with storages := cr.storages.map (fun q => (q.1, (q.2.remove e).2)) }

/-! ## World facade (ecs/world.go) -/

structure World (α : Type) where
  entityManager : EntityManager
  componentRegistry : ComponentRegistry α
  deriving DecidableEq

def World.new (α : Type) : World α := ⟨EntityManager.new, ComponentRegistry.new⟩

def World.createEntity (w : World α) : Entity × World α :=
  let r := w.entityManager.create
  (r.1, { w with entityManager := r.2 })

/-- `World.DestroyEntity`: false if invalid, else cascade
`RemoveAllComponents` and destroy the handle. -/
def World.destroyEntity (w : World α) (e : Entity) : Bool × World α :=
  if w.entityManager.isValid e = false then (false, w)
  else
    let cr := w.componentRegistry.removeAllComponents e
    let r := w.entityManager.destroy e
    (r.1, ⟨r.2, cr⟩)

def World.isValidEntity (w : World α) (e : Entity) : Bool :=
  w.entityManager.isValid e

/-- `AddComponent`: no-op on an invalid handle, else register the type and
insert into its pool. -/
def addComponent (w : World α) (t : Nat) (e : Entity) (v : α) : World α :=
  if w.entityManager.isValid e = false then w
  else
    let cr1 := (w.componentRegistry.register t).2
    match cr1.typeToID.lookup t with
    | none => { w with componentRegistry := cr1 }
    | some id =>
        match cr1.storages.lookup id with
        | none => { w with componentRegistry := cr1 }
        | some pool =>
            { w with componentRegistry :=
                cr1.setStorageByID id (pool.insert e v) }

/-- `RemoveComponent`. -/
def removeComponent (w : World α) (t : Nat) (e : Entity) : Bool × World α :=
  if w.entityManager.isValid e = false then (false, w)
  else
    match w.componentRegistry.typeToID.lookup t with
    | none => (false, w)
    | some id =>
        match w.componentRegistry.storages.lookup id with
        | none => (false, w)
        | some pool =>
            let r := pool.remove e
            (r.1, { w with componentRegistry :=
                      w.componentRegistry.setStorageByID id r.2 })

/-- `GetComponent`. -/
def getComponent (w : World α) (t : Nat) (e : Entity) : Option α :=
  if w.entityManager.isValid e = false then none
  else
    match w.componentRegistry.getStorage t with
    | some pool => pool.get e
    | none => none

/-- `HasComponent`. -/
def hasComponent (w : World α) (t : Nat) (e : Entity) : Bool :=
  if w.entityManager.isValid e = false then false
  else
    match w.componentRegistry.getStorage t with
    | some pool => pool.entities.contains e
    | none => false

/-! Concrete scenario for the invalid-handle atomicity claim: create the
first entity of a fresh world, destroy it (it stays on the free list), then
add a component through the destroyed handle. -/

def c5Entity : Entity := (World.new Nat).createEntity.1

def c5AfterCreate : World Nat := (World.new Nat).createEntity.2

def c5AfterDestroy : World Nat := (c5AfterCreate.destroyEntity c5Entity).2

def c5AfterAdd : World Nat := addComponent c5AfterDestroy 0 c5Entity 42

/-- C5: invalid-handle atomicity fails on the code.  `c5Entity` is
`Entity(0.0)`; after a successful destroy it is stale (destroyed, still on
the free list, its index unoccupied), yet the free-list self-link stored in
its slot equals its generation, so `IsValid` wrongly accepts it:
`AddComponent` then registers the type and inserts a component — mutating
the registry — and `GetComponent` finds the value, where the claim requires
a no-op and not-found. -/
theorem C5_stale_handle_operations_mutate :
    (c5AfterCreate.destroyEntity c5Entity).1 = true ∧
    getComponent c5AfterAdd 0 c5Entity = some 42 ∧
    c5AfterAdd.componentRegistry ≠ c5AfterDestroy.componentRegistry := by
  decide

/-- Unfolding of the containment test, shared by several proofs below. -/
theorem SparseSet.contains_iff (s : SparseSet) (e : Entity) :
    s.contains e = true ↔
      (e ≠ NullEntity ∧ eIndex e < s.sparse.length ∧
       0 ≤ s.sparse.getD (eIndex e) (-1) ∧
       (s.sparse.getD (eIndex e) (-1)).toNat < s.size ∧
       s.dense.getD (s.sparse.getD (eIndex e) (-1)).toNat NullEntity = e) := by
  unfold SparseSet.contains eValid
  simp only [Bool.and_eq_true, decide_eq_true_eq, bne_iff_ne, ne_eq,
    beq_iff_eq]
  constructor
  · rintro ⟨⟨hv, hi⟩, ⟨h0, hlt⟩, hd⟩
    exact ⟨hv, hi, h0, by omega, hd⟩
  · rintro ⟨hv, hi, h0, hlt, hd⟩
    exact ⟨⟨hv, hi⟩, ⟨h0, by omega⟩, hd⟩

/-- C7: `Contains(e)` is true iff `e` is not the null sentinel, the sparse
lookup at `e`'s index is in range and yields a dense position inside
`[0, size)`, and the dense entry there equals `e` exactly — index and
generation both —, so a stale handle over a reused index is absent. -/
theorem C7_contains_characterization (s : SparseSet) (e : Entity) :
    s.contains e = true ↔
      (e ≠ NullEntity ∧ eIndex e < s.sparse.length ∧
       0 ≤ s.sparse.getD (eIndex e) (-1) ∧
       (s.sparse.getD (eIndex e) (-1)).toNat < s.size ∧
       s.dense.getD (s.sparse.getD (eIndex e) (-1)).toNat NullEntity = e) :=
  s.contains_iff e

/-! Helper lemmas about list updates and association-list lookups. -/

theorem getD_set_minus_one (l : List Int) (i : Nat) :
    (l.set i (-1)).getD i (-1) = -1 := by
  rcases Nat.lt_or_ge i l.length with h | h
  · rw [List.getD_eq_getD_get?, List.get?_set_eq_of_lt _ h]
    rfl
  · rw [List.getD_eq_default]
    rw [List.length_set]
    exact h

theorem lookup_removeAll {α : Type} (l : List (Nat × ComponentPool α))
    (e : Entity) (k : Nat) :
    (l.map (fun q => (q.1, (q.2.remove e).2))).lookup k =
      (l.lookup k).map (fun p => (p.remove e).2) := by
  induction l with
  | nil => rfl
  | cons hd tl ih =>
      simp only [List.map_cons, List.lookup]
      cases h : k == hd.1 <;> simp [h, ih]

theorem lookup_append_of_some {β : Type} (l l' : List (Nat × β)) (k : Nat)
    (v : β) (h : l.lookup k = some v) : (l ++ l').lookup k = some v := by
  induction l with
  | nil => simp [List.lookup] at h
  | cons hd tl ih =>
      simp only [List.cons_append, List.lookup] at *
      cases hk : k == hd.1 <;> simp [hk] at h ⊢ <;> simp_all

theorem lookup_append_of_none {β : Type} (l l' : List (Nat × β)) (k : Nat)
    (h : l.lookup k = none) : (l ++ l').lookup k = l'.lookup k := by
  induction l with
  | nil => rfl
  | cons hd tl ih =>
      rw [List.cons_append]
      rw [List.lookup] at h ⊢
      cases hk : k == hd.1 with
      | true => rw [hk] at h; exact Option.noConfusion h
      | false => rw [hk] at h; exact ih h

/-- After `Remove(e)` the removed handle is absent, in every starting
state: the sparse slot at `e`'s index ends at `-1`. -/
theorem SparseSet.remove_contains_self (s : SparseSet) (e : Entity) :
    ((s.remove e).2).contains e = false := by
  unfold SparseSet.remove
  split
  · next h => exact h
  · split <;>
      · simp only [SparseSet.contains, getD_set_minus_one]
        simp

/-- Pool removal delegates to the sparse set, so the entity ends absent. -/
theorem ComponentPool.remove_absent_self {α : Type} (cp : ComponentPool α)
    (e : Entity) : ((cp.remove e).2).entities.contains e = false := by
  cases hc : cp.entities.contains e with
  | false => simp [ComponentPool.remove, hc]
  | true =>
      simp only [ComponentPool.remove, hc, Bool.true_eq_false, if_false]
      exact cp.entities.remove_contains_self e

/-- A handle accepted by `IsValid` passes all of `Destroy`'s guards. -/
theorem EntityManager.destroy_fst_of_isValid (em : EntityManager) (e : Entity)
    (h : em.isValid e = true) : (em.destroy e).1 = true := by
  unfold EntityManager.isValid at h
  simp only [Bool.and_eq_true, decide_eq_true_eq, beq_iff_eq] at h
  obtain ⟨⟨hv, hlt⟩, hg⟩ := h
  unfold EntityManager.destroy
  rw [if_neg (by simp [hv]), if_neg (by omega), if_neg (not_not_intro hg)]

/-- After the cascade `RemoveAllComponents e`, every registered pool
reports `e` absent, whatever the entity-manager side says. -/
theorem hasComponent_removeAll {α : Type} (em : EntityManager)
    (cr : ComponentRegistry α) (t : Nat) (e : Entity) :
    hasComponent ⟨em, cr.removeAllComponents e⟩ t e = false := by
  unfold hasComponent
  cases hvalid : em.isValid e with
  | false => simp [hvalid]
  | true =>
      simp only [hvalid, Bool.true_eq_false, if_false]
      simp only [ComponentRegistry.getStorage, ComponentRegistry.removeAllComponents]
      cases ht : cr.typeToID.lookup t with
      | none => simp [ht]
      | some id =>
          simp only [ht]
          rw [lookup_removeAll]
          cases hs : cr.storages.lookup id with
          | none => simp [hs]
          | some pool => simp [hs, pool.remove_absent_self e]

/-- C8: destroy cascade.  A valid entity is destroyed successfully and is
afterwards reported component-free for every type key (registered or not);
an invalid entity makes `DestroyEntity` return false with the world
unchanged. -/
theorem C8_destroy_cascade (w : World Nat) (e : Entity) :
    (w.entityManager.isValid e = true →
       (w.destroyEntity e).1 = true ∧
       ∀ t, hasComponent (w.destroyEntity e).2 t e = false) ∧
    (w.entityManager.isValid e = false → w.destroyEntity e = (false, w)) := by
  constructor
  · intro hv
    constructor
    · simp only [World.destroyEntity, hv, Bool.true_eq_false, if_false]
      exact w.entityManager.destroy_fst_of_isValid e hv
    · intro t
      simp only [World.destroyEntity, hv, Bool.true_eq_false, if_false]
      exact hasComponent_removeAll _ _ t e
  · intro hv
    simp [World.destroyEntity, hv]

def c8World : World Nat :=
  ⟨⟨[0], -1⟩, ⟨1, [(7, 0)], [(0, ⟨⟨[0], [0], 1⟩, [5]⟩)]⟩⟩

/-- C8 witness: in a world whose entity `Entity(0.0)` holds a component of
the type keyed `7`, destroying it succeeds and `HasComponent` is false
afterwards; destroying the null handle fails and leaves the world as it
was. -/
theorem C8_destroy_cascade_witness :
    (c8World.destroyEntity 0).1 = true ∧
    hasComponent (c8World.destroyEntity 0).2 7 0 = false ∧
    c8World.destroyEntity 4294967295 = (false, c8World) :=
  ⟨((C8_destroy_cascade c8World 0).1 (by decide)).1,
   ((C8_destroy_cascade c8World 0).1 (by decide)).2 7,
   (C8_destroy_cascade c8World 4294967295).2 (by decide)⟩

/-! ## Registration reachability (for the registry claims)

Registries produced by the code start empty and are only extended through
`Register`; pool contents change, but `nextID` and `typeToID` are touched
by registration alone. -/

inductive RegReachable {α : Type} : ComponentRegistry α → Prop where
  | base : RegReachable ComponentRegistry.new
  | step (cr : ComponentRegistry α) (t : Nat) :
      RegReachable cr → RegReachable (cr.register t).2

/-- Registration keeps `typeToID`'s IDs equal to `0, 1, …, nextID-1` in
first-registration order. -/
theorem RegReachable.ids_dense {α : Type} {cr : ComponentRegistry α}
    (h : RegReachable cr) :
    cr.typeToID.map Prod.snd = List.range cr.nextID := by
  induction h with
  | base => rfl
  | step cr t _ ih =>
      unfold ComponentRegistry.register
      cases hl : cr.typeToID.lookup t with
      | some id => simpa using ih
      | none => simp [List.range_succ, ih]

/-- C9: `Register` is idempotent per type key, IDs are assigned densely
from 0 in first-registration order, and an assigned ID survives any later
registration. -/
theorem C9_register_idempotent_dense (cr : ComponentRegistry Nat) (t : Nat)
    (h : RegReachable cr) :
    ((cr.register t).2.register t).1 = (cr.register t).1 ∧
    ((cr.register t).2.register t).2 = (cr.register t).2 ∧
    cr.typeToID.map Prod.snd = List.range cr.nextID ∧
    (∀ t0 id, cr.typeToID.lookup t0 = some id →
       ∀ u, ((cr.register u).2).typeToID.lookup t0 = some id) := by
  have hsecond : ((cr.register t).2.register t).1 = (cr.register t).1 ∧
      ((cr.register t).2.register t).2 = (cr.register t).2 := by
    unfold ComponentRegistry.register
    cases hl : cr.typeToID.lookup t with
    | some id => simp [hl]
    | none =>
        simp only [hl]
        have : (cr.typeToID ++ [(t, cr.nextID)]).lookup t = some cr.nextID := by
          rw [lookup_append_of_none _ _ _ hl]
          simp [List.lookup]
        simp [this]
  refine ⟨hsecond.1, hsecond.2, h.ids_dense, ?_⟩
  intro t0 id hid u
  unfold ComponentRegistry.register
  cases hl : cr.typeToID.lookup u with
  | some _ => simpa using hid
  | none => simpa using lookup_append_of_some _ [(u, cr.nextID)] _ _ hid

/-- C9 witness: applying the theorem to the empty registry and type key 3. -/
theorem C9_register_idempotent_dense_witness :
    (((ComponentRegistry.new : ComponentRegistry Nat).register 3).2.register 3).1 =
      ((ComponentRegistry.new : ComponentRegistry Nat).register 3).1 ∧
    (((ComponentRegistry.new : ComponentRegistry Nat).register 3).2.register 3).2 =
      ((ComponentRegistry.new : ComponentRegistry Nat).register 3).2 ∧
    (ComponentRegistry.new : ComponentRegistry Nat).typeToID.map Prod.snd =
      List.range (ComponentRegistry.new : ComponentRegistry Nat).nextID ∧
    (∀ t0 id,
       (ComponentRegistry.new : ComponentRegistry Nat).typeToID.lookup t0 = some id →
       ∀ u, (((ComponentRegistry.new : ComponentRegistry Nat).register u).2).typeToID.lookup t0 =
         some id) :=
  C9_register_idempotent_dense ComponentRegistry.new 3 RegReachable.base

/-- C10: `At(i)` returns `NullEntity` whenever `i` is outside `[0, size)`
and the dense entry at `i` otherwise; out-of-range access never reads the
dense array. -/
theorem C10_at_bounds_safe (s : SparseSet) (i : Int) :
    ((i < 0 ∨ (s.size : Int) ≤ i) → s.atIdx i = NullEntity) ∧
    (0 ≤ i → i < (s.size : Int) →
      s.atIdx i = s.dense.getD i.toNat NullEntity) := by
  constructor
  · intro h
    simp only [SparseSet.atIdx, if_pos h]
  · intro h0 hlt
    simp only [SparseSet.atIdx]
    rw [if_neg]
    omega

/-- C10 witness: a concrete three-element set; `At` at `-1` and `3` returns
the null sentinel, `At 1` returns the middle dense entry. -/
theorem C10_at_bounds_safe_witness :
    (SparseSet.mk [0, 1, 2] [0, 1, 2] 3).atIdx (-1) = NullEntity ∧
    (SparseSet.mk [0, 1, 2] [0, 1, 2] 3).atIdx 3 = NullEntity ∧
    (SparseSet.mk [0, 1, 2] [0, 1, 2] 3).atIdx 1 =
      (SparseSet.mk [0, 1, 2] [0, 1, 2] 3).dense.getD 1 NullEntity :=
  ⟨(C10_at_bounds_safe _ (-1)).1 (by decide),
   (C10_at_bounds_safe _ 3).1 (by decide),
   (C10_at_bounds_safe _ 1).2 (by decide) (by decide)⟩

/-! ## Query engine (ecs/query.go)

A query is the four criterion lists of component IDs.  The Go fields are
`include`, `exclude`, `includeAny`, `excludeAny`; `include` is a Lean
keyword, so the embedded fields carry an `IDs` suffix. -/

structure Query where
  includeIDs : List Nat
  excludeIDs : List Nat
  includeAnyIDs : List Nat
  excludeAnyIDs : List Nat
  deriving DecidableEq

/-- The per-criterion check both `Build` and `matchesEntity` perform:
look the ID up in the registry and test pool membership; an unregistered
ID never contains any entity. -/
def containsByID {α : Type} (cr : ComponentRegistry α) (id : Nat)
    (e : Entity) : Bool :=
  match cr.storages.lookup id with
  | some st => st.entities.contains e
  | none => false

/-- `Query.matchesEntity`: all `include` pools contain `e`, no `exclude`
pool does, at least one `includeAny` pool does when that list is
non-empty, and no `excludeAny` pool does. -/
def matchesEntity {α : Type} (cr : ComponentRegistry α) (q : Query)
    (e : Entity) : Bool :=
  q.includeIDs.all (fun id => containsByID cr id e) &&
  q.excludeIDs.all (fun id => !containsByID cr id e) &&
  (if q.includeAnyIDs.length ≠ 0 then
      q.includeAnyIDs.any (fun id => containsByID cr id e)
    else true) &&
  q.excludeAnyIDs.all (fun id => !containsByID cr id e)

/-- One step of `Build`'s smallest-pool scan over the `include` IDs; the
accumulator starts at Go's max `int`. -/
def fsStep {α : Type} (cr : ComponentRegistry α)
    (acc : Nat × Option (ComponentPool α)) (id : Nat) :
    Nat × Option (ComponentPool α) :=
  match cr.storages.lookup id with
  | some st =>
      if st.entities.size < acc.1 then (st.entities.size, some st) else acc
  | none => acc

/-- The smallest registered `include` pool (ties to the earliest). -/
def findSmallest {α : Type} (cr : ComponentRegistry α) (ids : List Nat) :
    Option (ComponentPool α) :=
  (ids.foldl (fsStep cr) (9223372036854775807, none)).2

/-- One step of candidate collection for the `includeAny`-only branch:
fold a registered pool's dense data into the accumulator, skipping
entities already collected (Go deduplicates through a `map[Entity]bool`
whose iteration order is unspecified; the embedding keeps first-seen
order, which refines the set the code produces). -/
def qUnion {α : Type} (cr : ComponentRegistry α) (acc : List Entity)
    (id : Nat) : List Entity :=
  match cr.storages.lookup id with
  | some st =>
      st.entities.data.foldl
        (fun a x => if a.contains x then a else a ++ [x]) acc
  | none => acc

/-- Candidate collection over all `includeAny` IDs. -/
def collectAny {α : Type} (cr : ComponentRegistry α) (ids : List Nat) :
    List Entity :=
  ids.foldl (qUnion cr) []

/-- `Query.Build`: empty without a positive criterion; otherwise filter the
candidates (smallest `include` pool, or the `includeAny` union) through
`matchesEntity`. -/
def Query.build {α : Type} (q : Query) (cr : ComponentRegistry α) :
    List Entity :=
  if q.includeIDs.length = 0 ∧ q.includeAnyIDs.length = 0 then []
  else if 0 < q.includeIDs.length then
    match findSmallest cr q.includeIDs with
    | some st => st.entities.data.filter (fun e => matchesEntity cr q e)
    | none => []
  else (collectAny cr q.includeAnyIDs).filter (fun e => matchesEntity cr q e)

/-- C1: recycling safety fails on the code.  Starting from a fresh manager,
`Create` returns `e = Entity(0.0)`; `Destroy e` succeeds; the next `Create`
reuses index 0 and, because the implementation resets the generation to 0
on reuse instead of incrementing it, returns the very same handle `e`, and
`IsValid e` is true afterwards — the claim requires the new entity to
differ from `e` and `IsValid e` to be false. -/
theorem C1_generation_reset_on_reuse :
    ((EntityManager.new.create.2.destroy EntityManager.new.create.1).1 = true) ∧
    ((EntityManager.new.create.2.destroy
        EntityManager.new.create.1).2.create.1 = EntityManager.new.create.1) ∧
    ((EntityManager.new.create.2.destroy
        EntityManager.new.create.1).2.create.2.isValid
          EntityManager.new.create.1 = true) := by decide

/-- C4: double destroy is not rejected.  For `e = Entity(0.0)` the first
`Destroy` stores the free-list self-link `0` in slot 0, which coincides
with `e`'s generation `0`, so a second `Destroy e` passes the generation
check and returns true — the claim requires it to return false. -/
theorem C4_double_destroy_not_rejected :
    ((EntityManager.new.create.2.destroy EntityManager.new.create.1).1 = true) ∧
    (((EntityManager.new.create.2.destroy
        EntityManager.new.create.1).2.destroy
          EntityManager.new.create.1).1 = true) := by decide

/-! ## Support for the query-semantics claim -/

/-- Pools the code can actually build have their dense array at least
`size` long and a size below Go's max `int`. -/
def poolOk {α : Type} (p : ComponentPool α) : Prop :=
  p.entities.size ≤ p.entities.dense.length ∧
  p.entities.size < 9223372036854775807

def registryPoolsOk {α : Type} (cr : ComponentRegistry α) : Prop :=
  ∀ pr ∈ cr.storages, poolOk pr.2

theorem lookup_mem {β : Type} (l : List (Nat × β)) (k : Nat) (v : β)
    (h : l.lookup k = some v) : (k, v) ∈ l := by
  induction l with
  | nil => exact absurd h (by simp [List.lookup])
  | cons hd tl ih =>
      rw [List.lookup] at h
      cases hk : k == hd.1 with
      | true =>
          rw [hk] at h
          have h1 : hd.2 = v := Option.some.inj h
          have h2 : k = hd.1 := by simpa using hk
          have h3 : hd = (k, v) := by rw [h2, ← h1]
          rw [← h3]
          exact List.mem_cons_self _ _
      | false =>
          rw [hk] at h
          exact List.mem_cons_of_mem _ (ih h)

theorem get?_eq_some_getD {β : Type} {l : List β} {i : Nat} (d : β)
    (h : i < l.length) : l.get? i = some (l.getD i d) := by
  rw [List.getD_eq_getD_get?]
  cases hg : l.get? i with
  | none => exact absurd (List.get?_eq_none.mp hg) (by omega)
  | some x => rfl

/-- An entity the containment test accepts appears in `Data()` whenever the
dense array is at least `size` long. -/
theorem SparseSet.contains_mem (s : SparseSet) (e : Entity)
    (hlen : s.size ≤ s.dense.length) (hc : s.contains e = true) :
    e ∈ s.data := by
  obtain ⟨hv, hil, h0, hlt, hd⟩ := (s.contains_iff e).mp hc
  set d := (s.sparse.getD (eIndex e) (-1)).toNat with hdval
  have hget : s.dense.get? d = some e := by
    rw [get?_eq_some_getD NullEntity (by omega), hd]
  have htake : (s.dense.take s.size).get? d = some e := by
    rw [List.get?_take hlt]
    exact hget
  exact List.get?_mem htake

theorem exists_mem_cons {β : Type} (a : β) (l : List β) (p : β → Prop) :
    (∃ x ∈ a :: l, p x) ↔ p a ∨ ∃ x ∈ l, p x := by
  constructor
  · rintro ⟨x, hx, hp⟩
    rcases List.mem_cons.mp hx with rfl | h
    · exact Or.inl hp
    · exact Or.inr ⟨x, h, hp⟩
  · rintro (h | ⟨x, hx, hp⟩)
    · exact ⟨a, List.mem_cons_self _ _, h⟩
    · exact ⟨x, List.mem_cons_of_mem _ hx, hp⟩

/-- `matchesEntity` unfolded into the four criterion conditions. -/
theorem matchesEntity_iff {α : Type} (cr : ComponentRegistry α) (q : Query)
    (e : Entity) :
    matchesEntity cr q e = true ↔
      ((∀ id ∈ q.includeIDs, containsByID cr id e = true) ∧
       (∀ id ∈ q.excludeIDs, containsByID cr id e = false) ∧
       (q.includeAnyIDs ≠ [] →
          ∃ id ∈ q.includeAnyIDs, containsByID cr id e = true) ∧
       (∀ id ∈ q.excludeAnyIDs, containsByID cr id e = false)) := by
  unfold matchesEntity
  by_cases h : q.includeAnyIDs = []
  · simp only [h, List.length_nil, ne_eq, not_true_eq_false, if_false,
      Bool.and_true, Bool.and_eq_true, List.all_eq_true, Bool.not_eq_true',
      List.not_mem_nil, false_implies, IsEmpty.forall_iff, implies_true,
      not_false_iff, true_implies, and_true]
    tauto
  · have hlen : q.includeAnyIDs.length ≠ 0 := by
      simpa [List.length_eq_zero] using h
    simp only [hlen, ne_eq, not_false_iff, if_true, Bool.and_eq_true,
      List.all_eq_true, List.any_eq_true, Bool.not_eq_true', h, true_implies]
    tauto

theorem fsStep_eq_some {α : Type} (cr : ComponentRegistry α)
    (acc : Nat × Option (ComponentPool α)) (id : Nat)
    (st' : ComponentPool α) (hl : cr.storages.lookup id = some st') :
    fsStep cr acc id =
      if st'.entities.size < acc.1 then (st'.entities.size, some st')
      else acc := by
  unfold fsStep
  rw [hl]

theorem fsStep_eq_none {α : Type} (cr : ComponentRegistry α)
    (acc : Nat × Option (ComponentPool α)) (id : Nat)
    (hl : cr.storages.lookup id = none) : fsStep cr acc id = acc := by
  unfold fsStep
  rw [hl]

/-- Any pool the smallest-pool scan returns is the storage of one of the
scanned IDs. -/
theorem fsStep_foldl_some {α : Type} (cr : ComponentRegistry α) :
    ∀ (ids : List Nat) (acc : Nat × Option (ComponentPool α))
      (st : ComponentPool α),
      (ids.foldl (fsStep cr) acc).2 = some st →
      acc.2 = some st ∨ ∃ id ∈ ids, cr.storages.lookup id = some st := by
  intro ids
  induction ids with
  | nil => intro acc st h; exact Or.inl h
  | cons id rest ih =>
      intro acc st h
      rw [List.foldl_cons] at h
      rcases ih _ st h with h1 | ⟨id', hm, hl⟩
      · cases hl : cr.storages.lookup id with
        | none => rw [fsStep_eq_none cr acc id hl] at h1; exact Or.inl h1
        | some st' =>
            rw [fsStep_eq_some cr acc id st' hl] at h1
            by_cases hsz : st'.entities.size < acc.1
            · rw [if_pos hsz] at h1
              exact Or.inr ⟨id, List.mem_cons_self _ _, hl.trans h1⟩
            · rw [if_neg hsz] at h1; exact Or.inl h1
      · exact Or.inr ⟨id', List.mem_cons_of_mem _ hm, hl⟩

theorem fsStep_isSome {α : Type} (cr : ComponentRegistry α)
    (acc : Nat × Option (ComponentPool α)) (id : Nat)
    (h : acc.2.isSome) : ((fsStep cr acc id).2).isSome := by
  cases hl : cr.storages.lookup id with
  | none => rw [fsStep_eq_none cr acc id hl]; exact h
  | some st' =>
      rw [fsStep_eq_some cr acc id st' hl]
      by_cases hsz : st'.entities.size < acc.1
      · rw [if_pos hsz]; rfl
      · rw [if_neg hsz]; exact h

theorem fsStep_foldl_isSome {α : Type} (cr : ComponentRegistry α) :
    ∀ (ids : List Nat) (acc : Nat × Option (ComponentPool α)),
      acc.2.isSome → (((ids.foldl (fsStep cr) acc)).2).isSome := by
  intro ids
  induction ids with
  | nil => intro acc h; exact h
  | cons id rest ih =>
      intro acc h
      rw [List.foldl_cons]
      exact ih _ (fsStep_isSome cr acc id h)

theorem fsStep_inv {α : Type} (cr : ComponentRegistry α)
    (acc : Nat × Option (ComponentPool α)) (id : Nat)
    (hinv : acc.2 = none → acc.1 = 9223372036854775807) :
    (fsStep cr acc id).2 = none →
      (fsStep cr acc id).1 = 9223372036854775807 := by
  cases hl : cr.storages.lookup id with
  | none => rw [fsStep_eq_none cr acc id hl]; exact hinv
  | some st1 =>
      rw [fsStep_eq_some cr acc id st1 hl]
      by_cases hs1 : st1.entities.size < acc.1
      · rw [if_pos hs1]; intro h2; exact absurd h2 (by simp)
      · rw [if_neg hs1]; exact hinv

/-- If some scanned ID is registered (with a size below Go's max `int`),
the scan returns a pool. -/
theorem fsStep_foldl_exists {α : Type} (cr : ComponentRegistry α) :
    ∀ (ids : List Nat) (acc : Nat × Option (ComponentPool α)),
      (acc.2 = none → acc.1 = 9223372036854775807) →
      (∃ id ∈ ids, ∃ st, cr.storages.lookup id = some st ∧
         st.entities.size < 9223372036854775807) →
      (((ids.foldl (fsStep cr) acc)).2).isSome := by
  intro ids
  induction ids with
  | nil =>
      rintro acc _ ⟨id, hm, _⟩
      exact absurd hm (List.not_mem_nil id)
  | cons id rest ih =>
      rintro acc hinv ⟨id', hm, st, hl, hsz⟩
      rw [List.foldl_cons]
      rcases List.mem_cons.mp hm with rfl | hm'
      · apply fsStep_foldl_isSome
        cases hacc : acc.2 with
        | some st0 => exact fsStep_isSome cr acc id' (by simp [hacc])
        | none =>
            rw [fsStep_eq_some cr acc id' st hl,
              if_pos (by rw [hinv hacc]; exact hsz)]
            rfl
      · exact ih _ (fsStep_inv cr acc id hinv) ⟨id', hm', st, hl, hsz⟩

theorem mem_dedupAppend (xs : List Entity) :
    ∀ (acc : List Entity) (y : Entity),
      (y ∈ xs.foldl (fun a x => if a.contains x then a else a ++ [x]) acc) ↔
        y ∈ acc ∨ y ∈ xs := by
  induction xs with
  | nil => intro acc y; simp
  | cons x rest ih =>
      intro acc y
      rw [List.foldl_cons, ih]
      by_cases h : acc.contains x
      · rw [if_pos h]
        have hx : x ∈ acc := by simpa using h
        constructor
        · rintro (h1 | h2)
          · exact Or.inl h1
          · exact Or.inr (List.mem_cons_of_mem _ h2)
        · rintro (h1 | h2)
          · exact Or.inl h1
          · rcases List.mem_cons.mp h2 with rfl | h3
            · exact Or.inl hx
            · exact Or.inr h3
      · rw [if_neg h]
        simp [List.mem_append, or_assoc]

/-- Membership in the `includeAny` candidate union. -/
theorem mem_collectAny {α : Type} (cr : ComponentRegistry α) (ids : List Nat)
    (y : Entity) :
    y ∈ collectAny cr ids ↔
      ∃ id ∈ ids, ∃ st, cr.storages.lookup id = some st ∧
        y ∈ st.entities.data := by
  have main : ∀ (l : List Nat) (acc : List Entity),
      (y ∈ l.foldl (qUnion cr) acc ↔
        y ∈ acc ∨ ∃ id ∈ l, ∃ st, cr.storages.lookup id = some st ∧
          y ∈ st.entities.data) := by
    intro l
    induction l with
    | nil => intro acc; simp
    | cons id rest ih =>
        intro acc
        rw [List.foldl_cons, ih, exists_mem_cons]
        unfold qUnion
        cases hl : cr.storages.lookup id with
        | none => simp [hl]
        | some st =>
            rw [mem_dedupAppend]
            simp only [hl, Option.some.injEq]
            constructor
            · rintro ((h1 | h2) | h3)
              · exact Or.inl h1
              · exact Or.inr (Or.inl ⟨st, rfl, h2⟩)
              · exact Or.inr (Or.inr h3)
            · rintro (h1 | ⟨st', hst, h2⟩ | h3)
              · exact Or.inl (Or.inl h1)
              · rw [← hst] at h2
                exact Or.inl (Or.inr h2)
              · exact Or.inr h3
  rw [collectAny, main]
  simp

theorem containsByID_eq_some {α : Type} (cr : ComponentRegistry α) (id : Nat)
    (st : ComponentPool α) (hl : cr.storages.lookup id = some st)
    (e : Entity) : containsByID cr id e = st.entities.contains e := by
  unfold containsByID
  rw [hl]

theorem containsByID_eq_none {α : Type} (cr : ComponentRegistry α) (id : Nat)
    (hl : cr.storages.lookup id = none) (e : Entity) :
    containsByID cr id e = false := by
  unfold containsByID
  rw [hl]

instance {α : Type} (p : ComponentPool α) : Decidable (poolOk p) := by
  unfold poolOk
  infer_instance

instance {α : Type} (cr : ComponentRegistry α) :
    Decidable (registryPoolsOk cr) := by
  unfold registryPoolsOk
  exact List.decidableBAll _ _

/-- C2: query filter semantics.  With no positive criterion `Build` is
empty; otherwise an entity is in the result exactly when every `include`
pool contains it (an unregistered `include` ID fails for every entity), no
`exclude` pool contains it, some `includeAny` pool contains it whenever
that list is non-empty, and no `excludeAny` pool contains it. -/
theorem C2_query_filter_semantics (w : World Nat) (q : Query) (e : Entity)
    (hok : registryPoolsOk w.componentRegistry) :
    (q.includeIDs = [] → q.includeAnyIDs = [] →
       q.build w.componentRegistry = []) ∧
    (e ∈ q.build w.componentRegistry ↔
       ((q.includeIDs ≠ [] ∨ q.includeAnyIDs ≠ []) ∧
        (∀ id ∈ q.includeIDs, containsByID w.componentRegistry id e = true) ∧
        (∀ id ∈ q.excludeIDs, containsByID w.componentRegistry id e = false) ∧
        (q.includeAnyIDs ≠ [] →
           ∃ id ∈ q.includeAnyIDs,
             containsByID w.componentRegistry id e = true) ∧
        (∀ id ∈ q.excludeAnyIDs,
           containsByID w.componentRegistry id e = false))) := by
  set cr := w.componentRegistry with hcr
  constructor
  · intro h1 h2
    unfold Query.build
    rw [if_pos ⟨by rw [h1]; rfl, by rw [h2]; rfl⟩]
  · by_cases hI : q.includeIDs = []
    · by_cases hA : q.includeAnyIDs = []
      · unfold Query.build
        rw [if_pos ⟨by rw [hI]; rfl, by rw [hA]; rfl⟩]
        simp [hI, hA]
      · unfold Query.build
        rw [if_neg (by rintro ⟨_, h2⟩; exact hA (List.length_eq_zero.mp h2)),
          if_neg (by simp [hI])]
        rw [List.mem_filter, mem_collectAny, matchesEntity_iff]
        constructor
        · rintro ⟨_, hm⟩
          exact ⟨Or.inr hA, hm.1, hm.2.1, hm.2.2.1, hm.2.2.2⟩
        · rintro ⟨_, hinc, hexc, hany, hexa⟩
          refine ⟨?_, hinc, hexc, hany, hexa⟩
          obtain ⟨id, hid, hcby⟩ := hany hA
          cases hl : cr.storages.lookup id with
          | none =>
              rw [containsByID_eq_none cr id hl] at hcby
              exact absurd hcby (by simp)
          | some st =>
              rw [containsByID_eq_some cr id st hl] at hcby
              have hpo : poolOk st := hok (id, st) (lookup_mem _ _ _ hl)
              exact ⟨id, hid, st, hl, st.entities.contains_mem e hpo.1 hcby⟩
    · unfold Query.build
      rw [if_neg (by rintro ⟨h1, _⟩; exact hI (List.length_eq_zero.mp h1)),
        if_pos (List.length_pos.mpr hI)]
      cases hfs : findSmallest cr q.includeIDs with
      | none =>
          show e ∈ ([] : List Entity) ↔ _
          constructor
          · intro h
            exact absurd h (List.not_mem_nil e)
          · rintro ⟨_, hinc, _, _, _⟩
            obtain ⟨id0, hid0⟩ := List.exists_mem_of_ne_nil _ hI
            have hcby := hinc id0 hid0
            cases hl : cr.storages.lookup id0 with
            | none =>
                rw [containsByID_eq_none cr id0 hl] at hcby
                exact absurd hcby (by simp)
            | some st =>
                have hpo : poolOk st := hok (id0, st) (lookup_mem _ _ _ hl)
                have hsome := fsStep_foldl_exists cr q.includeIDs
                  (9223372036854775807, none) (fun _ => rfl)
                  ⟨id0, hid0, st, hl, hpo.2⟩
                rw [show (q.includeIDs.foldl (fsStep cr)
                      (9223372036854775807, none)).2 =
                    findSmallest cr q.includeIDs from rfl, hfs] at hsome
                exact absurd hsome (by simp)
      | some st =>
          show e ∈ st.entities.data.filter (fun e => matchesEntity cr q e) ↔ _
          rw [List.mem_filter, matchesEntity_iff]
          constructor
          · rintro ⟨_, hm⟩
            exact ⟨Or.inl hI, hm.1, hm.2.1, hm.2.2.1, hm.2.2.2⟩
          · rintro ⟨_, hinc, hexc, hany, hexa⟩
            refine ⟨?_, hinc, hexc, hany, hexa⟩
            have hsrc := fsStep_foldl_some cr q.includeIDs
              (9223372036854775807, none) st hfs
            rcases hsrc with h0 | ⟨idm, hidm, hl⟩
            · exact absurd h0 (by simp)
            · have hcby := hinc idm hidm
              rw [containsByID_eq_some cr idm st hl] at hcby
              have hpo : poolOk st := hok (idm, st) (lookup_mem _ _ _ hl)
              exact st.entities.contains_mem e hpo.1 hcby

def c2World : World Nat :=
  ⟨⟨[0, 0], -1⟩,
   ⟨2, [(10, 0), (11, 1)],
    [(0, ⟨⟨[0, 1], [0, 1], 2⟩, [7, 8]⟩), (1, ⟨⟨[-1, 0], [1], 1⟩, [9]⟩)]⟩⟩

def c2Query : Query := ⟨[0], [1], [], []⟩

/-- C2 witness: in a world where pool 0 holds entities 0 and 1 and pool 1
holds entity 1, the query `include [0], exclude [1]` is applied to
entity 0 through the theorem. -/
theorem C2_query_filter_semantics_witness :
    (c2Query.includeIDs = [] → c2Query.includeAnyIDs = [] →
       c2Query.build c2World.componentRegistry = []) ∧
    (0 ∈ c2Query.build c2World.componentRegistry ↔
       ((c2Query.includeIDs ≠ [] ∨ c2Query.includeAnyIDs ≠ []) ∧
        (∀ id ∈ c2Query.includeIDs,
           containsByID c2World.componentRegistry id 0 = true) ∧
        (∀ id ∈ c2Query.excludeIDs,
           containsByID c2World.componentRegistry id 0 = false) ∧
        (c2Query.includeAnyIDs ≠ [] →
           ∃ id ∈ c2Query.includeAnyIDs,
             containsByID c2World.componentRegistry id 0 = true) ∧
        (∀ id ∈ c2Query.excludeAnyIDs,
           containsByID c2World.componentRegistry id 0 = false))) :=
  C2_query_filter_semantics c2World c2Query 0 (by decide)

/-! ## Sparse-set well-formedness

The invariant the spec states for sparse sets: the dense array is at least
`size` long, and every dense entry below `size` is a valid handle whose
sparse slot exists and points back at its dense position. -/

def SparseSet.WF (s : SparseSet) : Prop :=
  s.size ≤ s.dense.length ∧
  ∀ i, i < s.size →
    (s.dense.getD i NullEntity ≠ NullEntity ∧
     eIndex (s.dense.getD i NullEntity) < s.sparse.length ∧
     s.sparse.getD (eIndex (s.dense.getD i NullEntity)) (-1) = (i : Int))

instance (s : SparseSet) : Decidable s.WF := by
  unfold SparseSet.WF
  infer_instance

theorem getD_set_eq {β : Type} (l : List β) (i : Nat) (a d : β)
    (h : i < l.length) : (l.set i a).getD i d = a := by
  rw [List.getD_eq_getD_get?, List.get?_set_eq_of_lt _ h]
  rfl

theorem getD_set_ne {β : Type} (l : List β) (i j : Nat) (a d : β)
    (h : i ≠ j) : (l.set i a).getD j d = l.getD j d := by
  rw [List.getD_eq_getD_get?, List.getD_eq_getD_get?, List.get?_set_ne _ _ h]

/-- A dense entry below `size` passes the containment test. -/
theorem SparseSet.WF.contains_dense {s : SparseSet} (h : s.WF) {i : Nat}
    (hi : i < s.size) : s.contains (s.dense.getD i NullEntity) = true := by
  obtain ⟨hv, hil, hsp⟩ := h.2 i hi
  rw [s.contains_iff]
  refine ⟨hv, hil, ?_, ?_, ?_⟩ <;> rw [hsp]
  · exact Int.natCast_nonneg i
  · simpa using hi
  · simp

/-- Two dense positions below `size` holding entities with equal indices
coincide. -/
theorem SparseSet.WF.index_eq {s : SparseSet} (h : s.WF) {i j : Nat}
    (hi : i < s.size) (hj : j < s.size)
    (hij : eIndex (s.dense.getD i NullEntity) =
      eIndex (s.dense.getD j NullEntity)) : i = j := by
  have h1 := (h.2 i hi).2.2
  have h2 := (h.2 j hj).2.2
  rw [hij] at h1
  rw [h1] at h2
  exact_mod_cast h2

theorem SparseSet.WF.dense_inj {s : SparseSet} (h : s.WF) {i j : Nat}
    (hi : i < s.size) (hj : j < s.size)
    (hij : s.dense.getD i NullEntity = s.dense.getD j NullEntity) : i = j :=
  h.index_eq hi hj (by rw [hij])

/-- The containment data of an accepted handle, with the dense position as
a natural number. -/
theorem SparseSet.contains_spec {s : SparseSet} {e : Entity}
    (hc : s.contains e = true) :
    e ≠ NullEntity ∧ eIndex e < s.sparse.length ∧
    ∃ d : Nat, s.sparse.getD (eIndex e) (-1) = (d : Int) ∧ d < s.size ∧
      s.dense.getD d NullEntity = e := by
  obtain ⟨hv, hil, h0, hlt, hd⟩ := (s.contains_iff e).mp hc
  exact ⟨hv, hil, (s.sparse.getD (eIndex e) (-1)).toNat,
    (Int.toNat_of_nonneg h0).symm, hlt, hd⟩

/-- The two result states of a successful `Remove`, by whether the removed
entity's dense position `d` was the last one. -/
theorem SparseSet.remove_eq (s : SparseSet) (e : Entity)
    (hc : s.contains e = true) {d : Nat}
    (hd : s.sparse.getD (eIndex e) (-1) = (d : Int)) :
    s.remove e =
      (true,
        if d = s.size - 1 then
          ⟨s.sparse.set (eIndex e) (-1), s.dense, s.size - 1⟩
        else
          ⟨(s.sparse.set
              (eIndex (s.dense.getD (s.size - 1) NullEntity))
              ((d : Nat) : Int)).set (eIndex e) (-1),
           s.dense.set d (s.dense.getD (s.size - 1) NullEntity),
           s.size - 1⟩) := by
  unfold SparseSet.remove
  rw [if_neg (by simp [hc]), hd]
  by_cases hcase : d = s.size - 1
  · rw [if_neg (by simp [hcase]), if_pos hcase]
  · rw [if_pos (by exact_mod_cast hcase), if_neg hcase]
    simp

/-- Successful removal, second component only. -/
theorem SparseSet.remove_snd_eq (s : SparseSet) (e : Entity)
    (hc : s.contains e = true) {d : Nat}
    (hd : s.sparse.getD (eIndex e) (-1) = (d : Int)) :
    (s.remove e).2 =
      if d = s.size - 1 then
        ⟨s.sparse.set (eIndex e) (-1), s.dense, s.size - 1⟩
      else
        ⟨(s.sparse.set
            (eIndex (s.dense.getD (s.size - 1) NullEntity))
            ((d : Nat) : Int)).set (eIndex e) (-1),
         s.dense.set d (s.dense.getD (s.size - 1) NullEntity),
         s.size - 1⟩ := by
  rw [s.remove_eq e hc hd]

/-- Swap-and-pop leaves every other contained entity contained; the moved
last entity lands at the removed entity's dense position, everyone else
keeps theirs. -/
theorem SparseSet.remove_others (s : SparseSet) (e : Entity) (hWF : s.WF)
    (hc : s.contains e = true) (e' : Entity) (hne : e' ≠ e)
    (hc' : s.contains e' = true) :
    ((s.remove e).2).contains e' = true ∧
    ((s.remove e).2).indexOf e' =
      (if e' = s.dense.getD (s.size - 1) NullEntity ∧
          s.indexOf e ≠ ((s.size - 1 : Nat) : Int)
       then s.indexOf e else s.indexOf e') := by
  obtain ⟨hv, hil, d, hd, hdlt, hde⟩ := s.contains_spec hc
  obtain ⟨hv', hil', d', hd', hdlt', hde'⟩ := s.contains_spec hc'
  have hIe : s.indexOf e = (d : Int) := by
    unfold SparseSet.indexOf
    rw [if_neg (by simp [hc])]
    exact hd
  have hIe' : s.indexOf e' = (d' : Int) := by
    unfold SparseSet.indexOf
    rw [if_neg (by simp [hc'])]
    exact hd'
  have hdd' : d ≠ d' := by
    intro h
    apply hne
    rw [← hde', ← h, hde]
  have hidx : eIndex e ≠ eIndex e' := by
    intro h
    apply hdd'
    have h2 : ((d : Nat) : Int) = ((d' : Nat) : Int) := by rw [← hd, ← hd', h]
    exact_mod_cast h2
  rw [s.remove_snd_eq e hc hd]
  by_cases hcase : d = s.size - 1
  · rw [if_pos hcase]
    have hlast_eq : s.dense.getD (s.size - 1) NullEntity = e := by
      rw [← hcase]; exact hde
    have hcontains : (SparseSet.mk (s.sparse.set (eIndex e) (-1)) s.dense
        (s.size - 1)).contains e' = true := by
      apply (SparseSet.contains_iff _ _).mpr
      refine ⟨hv', ?_, ?_, ?_, ?_⟩
      · show eIndex e' < (s.sparse.set (eIndex e) (-1)).length
        rw [List.length_set]
        exact hil'
      · show 0 ≤ (s.sparse.set (eIndex e) (-1)).getD (eIndex e') (-1)
        rw [getD_set_ne _ _ _ _ _ hidx, hd']
        exact Int.natCast_nonneg d'
      · show ((s.sparse.set (eIndex e) (-1)).getD (eIndex e') (-1)).toNat <
          s.size - 1
        rw [getD_set_ne _ _ _ _ _ hidx, hd']
        have hd'ne : d' ≠ d := fun h => hdd' h.symm
        simp only [Int.toNat_natCast]
        omega
      · show s.dense.getD
            ((s.sparse.set (eIndex e) (-1)).getD (eIndex e') (-1)).toNat
            NullEntity = e'
        rw [getD_set_ne _ _ _ _ _ hidx, hd']
        simpa using hde'
    refine ⟨hcontains, ?_⟩
    rw [if_neg (by rintro ⟨h1, _⟩; exact hne (h1.trans hlast_eq))]
    unfold SparseSet.indexOf
    rw [if_neg (by rw [hcontains]; simp)]
    show (s.sparse.set (eIndex e) (-1)).getD (eIndex e') (-1) = s.indexOf e'
    rw [getD_set_ne _ _ _ _ _ hidx, hd', hIe']
  · rw [if_neg hcase]
    obtain ⟨hlv, hlil, hlsp⟩ := hWF.2 (s.size - 1) (by omega)
    by_cases hl' : e' = s.dense.getD (s.size - 1) NullEntity
    · have hcontains : (SparseSet.mk
          ((s.sparse.set
              (eIndex (s.dense.getD (s.size - 1) NullEntity))
              ((d : Nat) : Int)).set (eIndex e) (-1))
          (s.dense.set d (s.dense.getD (s.size - 1) NullEntity))
          (s.size - 1)).contains e' = true := by
        apply (SparseSet.contains_iff _ _).mpr
        refine ⟨hv', ?_, ?_, ?_, ?_⟩
        · show eIndex e' <
            ((s.sparse.set
                (eIndex (s.dense.getD (s.size - 1) NullEntity))
                ((d : Nat) : Int)).set (eIndex e) (-1)).length
          rw [List.length_set, List.length_set]
          exact hil'
        · show 0 ≤ ((s.sparse.set
              (eIndex (s.dense.getD (s.size - 1) NullEntity))
              ((d : Nat) : Int)).set (eIndex e) (-1)).getD (eIndex e') (-1)
          rw [getD_set_ne _ _ _ _ _ hidx, hl',
            getD_set_eq _ _ _ _ hlil]
          exact Int.natCast_nonneg d
        · show (((s.sparse.set
              (eIndex (s.dense.getD (s.size - 1) NullEntity))
              ((d : Nat) : Int)).set (eIndex e) (-1)).getD (eIndex e')
              (-1)).toNat < s.size - 1
          rw [getD_set_ne _ _ _ _ _ hidx, hl',
            getD_set_eq _ _ _ _ hlil]
          simp only [Int.toNat_natCast]
          omega
        · show (s.dense.set d (s.dense.getD (s.size - 1) NullEntity)).getD
              (((s.sparse.set
                  (eIndex (s.dense.getD (s.size - 1) NullEntity))
                  ((d : Nat) : Int)).set (eIndex e) (-1)).getD (eIndex e')
                  (-1)).toNat NullEntity = e'
          rw [getD_set_ne _ _ _ _ _ hidx, hl',
            getD_set_eq _ _ _ _ hlil]
          simp only [Int.toNat_natCast]
          rw [getD_set_eq _ _ _ _ (lt_of_lt_of_le hdlt hWF.1)]
      refine ⟨hcontains, ?_⟩
      rw [if_pos ⟨hl', by rw [hIe]; exact_mod_cast hcase⟩]
      unfold SparseSet.indexOf
      rw [if_neg (by rw [hcontains]; simp)]
      show ((s.sparse.set
          (eIndex (s.dense.getD (s.size - 1) NullEntity))
          ((d : Nat) : Int)).set (eIndex e) (-1)).getD (eIndex e') (-1) =
        s.indexOf e
      rw [getD_set_ne _ _ _ _ _ hidx, hl',
        getD_set_eq _ _ _ _ hlil, hIe]
    · have hd'ne : d' ≠ s.size - 1 := by
        intro h
        apply hl'
        rw [← hde', h]
      have hidx_e'_last : eIndex (s.dense.getD (s.size - 1) NullEntity) ≠
          eIndex e' := by
        intro h
        apply hd'ne
        have h2 : ((d' : Nat) : Int) = ((s.size - 1 : Nat) : Int) := by
          rw [← hd', ← hlsp, h]
        exact_mod_cast h2
      have hcontains : (SparseSet.mk
          ((s.sparse.set
              (eIndex (s.dense.getD (s.size - 1) NullEntity))
              ((d : Nat) : Int)).set (eIndex e) (-1))
          (s.dense.set d (s.dense.getD (s.size - 1) NullEntity))
          (s.size - 1)).contains e' = true := by
        apply (SparseSet.contains_iff _ _).mpr
        refine ⟨hv', ?_, ?_, ?_, ?_⟩
        · show eIndex e' <
            ((s.sparse.set
                (eIndex (s.dense.getD (s.size - 1) NullEntity))
                ((d : Nat) : Int)).set (eIndex e) (-1)).length
          rw [List.length_set, List.length_set]
          exact hil'
        · show 0 ≤ ((s.sparse.set
              (eIndex (s.dense.getD (s.size - 1) NullEntity))
              ((d : Nat) : Int)).set (eIndex e) (-1)).getD (eIndex e') (-1)
          rw [getD_set_ne _ _ _ _ _ hidx,
            getD_set_ne _ _ _ _ _ hidx_e'_last, hd']
          exact Int.natCast_nonneg d'
        · show (((s.sparse.set
              (eIndex (s.dense.getD (s.size - 1) NullEntity))
              ((d : Nat) : Int)).set (eIndex e) (-1)).getD (eIndex e')
              (-1)).toNat < s.size - 1
          rw [getD_set_ne _ _ _ _ _ hidx,
            getD_set_ne _ _ _ _ _ hidx_e'_last, hd']
          simp only [Int.toNat_natCast]
          omega
        · show (s.dense.set d (s.dense.getD (s.size - 1) NullEntity)).getD
              (((s.sparse.set
                  (eIndex (s.dense.getD (s.size - 1) NullEntity))
                  ((d : Nat) : Int)).set (eIndex e) (-1)).getD (eIndex e')
                  (-1)).toNat NullEntity = e'
          rw [getD_set_ne _ _ _ _ _ hidx,
            getD_set_ne _ _ _ _ _ hidx_e'_last, hd']
          simp only [Int.toNat_natCast]
          rw [getD_set_ne _ _ _ _ _ hdd']
          exact hde'
      refine ⟨hcontains, ?_⟩
      rw [if_neg (by rintro ⟨h1, _⟩; exact hl' h1)]
      unfold SparseSet.indexOf
      rw [if_neg (by rw [hcontains]; simp)]
      show ((s.sparse.set
          (eIndex (s.dense.getD (s.size - 1) NullEntity))
          ((d : Nat) : Int)).set (eIndex e) (-1)).getD (eIndex e') (-1) =
        s.indexOf e'
      rw [getD_set_ne _ _ _ _ _ hidx,
        getD_set_ne _ _ _ _ _ hidx_e'_last, hd', hIe']

/-- Swap-and-pop preserves the sparse-set invariant. -/
theorem SparseSet.remove_WF (s : SparseSet) (e : Entity) (hWF : s.WF) :
    ((s.remove e).2).WF := by
  cases hc : s.contains e with
  | false =>
      have h : s.remove e = (false, s) := by
        unfold SparseSet.remove
        rw [if_pos hc]
      rw [h]
      exact hWF
  | true =>
      obtain ⟨hv, hil, d, hd, hdlt, hde⟩ := s.contains_spec hc
      rw [s.remove_snd_eq e hc hd]
      by_cases hcase : d = s.size - 1
      · rw [if_pos hcase]
        constructor
        · show s.size - 1 ≤ s.dense.length
          exact le_trans (Nat.sub_le _ _) hWF.1
        · intro i hi
          have hi2 : i < s.size - 1 := hi
          obtain ⟨hvi, hili, hspi⟩ := hWF.2 i (by omega)
          have hne_idx : eIndex e ≠ eIndex (s.dense.getD i NullEntity) := by
            intro h
            have hdi := hWF.index_eq hdlt (by omega : i < s.size)
              (by rw [hde]; exact h)
            omega
          refine ⟨hvi, ?_, ?_⟩
          · show eIndex (s.dense.getD i NullEntity) <
              (s.sparse.set (eIndex e) (-1)).length
            rw [List.length_set]
            exact hili
          · show (s.sparse.set (eIndex e) (-1)).getD
              (eIndex (s.dense.getD i NullEntity)) (-1) = (i : Int)
            rw [getD_set_ne _ _ _ _ _ hne_idx]
            exact hspi
      · rw [if_neg hcase]
        obtain ⟨hlv, hlil, hlsp⟩ := hWF.2 (s.size - 1) (by omega)
        have hidx_last_e : eIndex e ≠
            eIndex (s.dense.getD (s.size - 1) NullEntity) := by
          intro h
          apply hcase
          exact hWF.index_eq hdlt (by omega) (by rw [hde]; exact h)
        constructor
        · show s.size - 1 ≤
            (s.dense.set d (s.dense.getD (s.size - 1) NullEntity)).length
          rw [List.length_set]
          exact le_trans (Nat.sub_le _ _) hWF.1
        · intro i hi
          have hi2 : i < s.size - 1 := hi
          by_cases hid : i = d
          · subst hid
            have hgd : (s.dense.set i
                (s.dense.getD (s.size - 1) NullEntity)).getD i NullEntity =
                s.dense.getD (s.size - 1) NullEntity :=
              getD_set_eq _ _ _ _ (lt_of_lt_of_le hdlt hWF.1)
            refine ⟨?_, ?_, ?_⟩
            · show (s.dense.set i
                  (s.dense.getD (s.size - 1) NullEntity)).getD i NullEntity ≠
                NullEntity
              rw [hgd]
              exact hlv
            · show eIndex ((s.dense.set i
                  (s.dense.getD (s.size - 1) NullEntity)).getD i NullEntity) <
                ((s.sparse.set
                    (eIndex (s.dense.getD (s.size - 1) NullEntity))
                    ((i : Nat) : Int)).set (eIndex e) (-1)).length
              rw [hgd, List.length_set, List.length_set]
              exact hlil
            · show ((s.sparse.set
                  (eIndex (s.dense.getD (s.size - 1) NullEntity))
                  ((i : Nat) : Int)).set (eIndex e) (-1)).getD
                  (eIndex ((s.dense.set i
                    (s.dense.getD (s.size - 1) NullEntity)).getD i
                    NullEntity)) (-1) = (i : Int)
              rw [hgd, getD_set_ne _ _ _ _ _ hidx_last_e,
                getD_set_eq _ _ _ _ hlil]
          · have hgd : (s.dense.set d
                (s.dense.getD (s.size - 1) NullEntity)).getD i NullEntity =
                s.dense.getD i NullEntity :=
              getD_set_ne _ _ _ _ _ (fun h => hid h.symm)
            obtain ⟨hvi, hili, hspi⟩ := hWF.2 i (by omega)
            have h1 : eIndex e ≠ eIndex (s.dense.getD i NullEntity) := by
              intro h
              have hdi := hWF.index_eq hdlt (by omega : i < s.size)
                (by rw [hde]; exact h)
              exact hid hdi.symm
            have h2 : eIndex (s.dense.getD (s.size - 1) NullEntity) ≠
                eIndex (s.dense.getD i NullEntity) := by
              intro h
              have hdi := hWF.index_eq (by omega : s.size - 1 < s.size)
                (by omega : i < s.size) h
              omega
            refine ⟨?_, ?_, ?_⟩
            · show (s.dense.set d
                  (s.dense.getD (s.size - 1) NullEntity)).getD i NullEntity ≠
                NullEntity
              rw [hgd]
              exact hvi
            · show eIndex ((s.dense.set d
                  (s.dense.getD (s.size - 1) NullEntity)).getD i NullEntity) <
                ((s.sparse.set
                    (eIndex (s.dense.getD (s.size - 1) NullEntity))
                    ((d : Nat) : Int)).set (eIndex e) (-1)).length
              rw [hgd, List.length_set, List.length_set]
              exact hili
            · show ((s.sparse.set
                  (eIndex (s.dense.getD (s.size - 1) NullEntity))
                  ((d : Nat) : Int)).set (eIndex e) (-1)).getD
                  (eIndex ((s.dense.set d
                    (s.dense.getD (s.size - 1) NullEntity)).getD i
                    NullEntity)) (-1) = (i : Int)
              rw [hgd, getD_set_ne _ _ _ _ _ h1, getD_set_ne _ _ _ _ _ h2]
              exact hspi

theorem SparseSet.remove_fst (s : SparseSet) (e : Entity)
    (hc : s.contains e = true) : (s.remove e).1 = true := by
  unfold SparseSet.remove
  rw [if_neg (by simp [hc])]
  split <;> rfl

theorem SparseSet.remove_size (s : SparseSet) (e : Entity)
    (hc : s.contains e = true) : ((s.remove e).2).size = s.size - 1 := by
  unfold SparseSet.remove
  rw [if_neg (by simp [hc])]
  split <;> rfl

/-- The dense position of a contained entity, read off `indexOf`. -/
theorem SparseSet.indexOf_eq (s : SparseSet) (e : Entity)
    (hc : s.contains e = true) {d : Nat}
    (hd : s.sparse.getD (eIndex e) (-1) = (d : Int)) :
    s.indexOf e = (d : Int) := by
  unfold SparseSet.indexOf
  rw [if_neg (by simp [hc])]
  exact hd

/-- C6: pool removal is swap-and-pop.  For a contained entity `e`:
`Remove` returns true, the size drops by one, `e` becomes absent, the
formerly last entity is repointed to `e`'s old dense position when `e` was
not last, and every other contained entity stays contained with its own
component value; removing an absent entity returns false and changes
nothing. -/
theorem C6_pool_swap_pop_remove (p : ComponentPool Nat) (e : Entity)
    (hWF : p.entities.WF) (hlen : p.entities.size ≤ p.components.length) :
    (p.entities.contains e = true →
       (p.remove e).1 = true ∧
       ((p.remove e).2).entities.size = p.entities.size - 1 ∧
       ((p.remove e).2).entities.contains e = false ∧
       (p.entities.indexOf e ≠ ((p.entities.size - 1 : Nat) : Int) →
          ((p.remove e).2).entities.indexOf
              (p.entities.dense.getD (p.entities.size - 1) NullEntity) =
            p.entities.indexOf e) ∧
       (∀ e', e' ≠ e → p.entities.contains e' = true →
          ((p.remove e).2).entities.contains e' = true ∧
          ((p.remove e).2).get e' = p.get e')) ∧
    (p.entities.contains e = false → p.remove e = (false, p)) := by
  constructor
  · intro hc
    obtain ⟨hv, hil, d, hd, hdlt, hde⟩ := p.entities.contains_spec hc
    have hIe : p.entities.indexOf e = (d : Int) := p.entities.indexOf_eq e hc hd
    have hsz1 : 1 ≤ p.entities.size := by omega
    have hpr : p.remove e = ((p.entities.remove e).1,
        ⟨(p.entities.remove e).2,
         removeComps p.components (p.entities.indexOf e).toNat
           (p.entities.size - 1)⟩) := by
      unfold ComponentPool.remove
      rw [if_neg (by simp [hc])]
    refine ⟨?_, ?_, ?_, ?_, ?_⟩
    · rw [hpr]
      show (p.entities.remove e).1 = true
      exact p.entities.remove_fst e hc
    · rw [hpr]
      show ((p.entities.remove e).2).size = p.entities.size - 1
      exact p.entities.remove_size e hc
    · rw [hpr]
      show ((p.entities.remove e).2).contains e = false
      exact p.entities.remove_contains_self e
    · intro hne_last
      have hdne : d ≠ p.entities.size - 1 := by
        rw [hIe] at hne_last
        exact_mod_cast hne_last
      have hclast : p.entities.contains
          (p.entities.dense.getD (p.entities.size - 1) NullEntity) = true :=
        @SparseSet.WF.contains_dense p.entities hWF (p.entities.size - 1)
          (by omega)
      have hlast_ne : p.entities.dense.getD (p.entities.size - 1)
          NullEntity ≠ e := by
        intro h
        exact hdne (@SparseSet.WF.dense_inj p.entities hWF d
          (p.entities.size - 1) hdlt (by omega) (by rw [hde]; exact h.symm))
      rw [hpr]
      show ((p.entities.remove e).2).indexOf
          (p.entities.dense.getD (p.entities.size - 1) NullEntity) =
        p.entities.indexOf e
      obtain ⟨_, hidx'⟩ := p.entities.remove_others e hWF hc _ hlast_ne hclast
      rw [hidx', if_pos ⟨rfl, hne_last⟩]
    · intro e' hne' hc'
      obtain ⟨hv', hil', d', hd', hdlt', hde'⟩ := p.entities.contains_spec hc'
      have hIe' : p.entities.indexOf e' = (d' : Int) :=
        p.entities.indexOf_eq e' hc' hd'
      obtain ⟨hcontains', hindex'⟩ :=
        p.entities.remove_others e hWF hc e' hne' hc'
      have hdd' : d ≠ d' := by
        intro h
        apply hne'
        rw [← hde', ← h, hde]
      refine ⟨?_, ?_⟩
      · rw [hpr]
        exact hcontains'
      · rw [hpr]
        show (ComponentPool.mk (p.entities.remove e).2
            (removeComps p.components (p.entities.indexOf e).toNat
              (p.entities.size - 1))).get e' = p.get e'
        unfold ComponentPool.get
        rw [if_pos hcontains', if_pos hc', hindex', hIe]
        simp only [Int.toNat_natCast]
        by_cases hcase : d = p.entities.size - 1
        · rw [show removeComps p.components d (p.entities.size - 1) =
              p.components by
            unfold removeComps
            rw [if_neg (by simpa using hcase)]]
          have hlast_is_e : p.entities.dense.getD (p.entities.size - 1)
              NullEntity = e := by
            rw [← hcase]
            exact hde
          rw [if_neg (by rintro ⟨h1, _⟩; exact hne' (h1.trans hlast_is_e)),
            hIe']
        · rw [show removeComps p.components d (p.entities.size - 1) =
              p.components.set d (p.components.getD (p.entities.size - 1) 0)
              by
            unfold removeComps
            rw [if_pos (by simpa using hcase),
              @get?_eq_some_getD Nat p.components (p.entities.size - 1) 0
                (by omega)]]
          by_cases hl' : e' = p.entities.dense.getD (p.entities.size - 1)
              NullEntity
          · have hd'last : d' = p.entities.size - 1 :=
              @SparseSet.WF.dense_inj p.entities hWF d'
                (p.entities.size - 1) hdlt' (by omega)
                (by rw [hde']; exact hl')
            rw [if_pos ⟨hl', by exact_mod_cast hcase⟩, hIe']
            simp only [Int.toNat_natCast]
            rw [List.get?_set_eq_of_lt _ (by omega), hd'last,
              @get?_eq_some_getD Nat p.components (p.entities.size - 1) 0
                (by omega)]
          · rw [if_neg (by rintro ⟨h1, _⟩; exact hl' h1), hIe']
            simp only [Int.toNat_natCast]
            rw [List.get?_set_ne _ _ hdd']
  · intro hc
    unfold ComponentPool.remove
    rw [if_pos hc]

def c6Pool : ComponentPool Nat :=
  ⟨⟨[0, 1, 2, 3, 4], [0, 1, 2, 3, 4], 5⟩, [10, 11, 12, 13, 14]⟩

/-- C6 witness: removing the non-last entity 1 from a pool of five
entities through the theorem; entity 4 (the moved last entity) keeps its
value, and removing an absent entity changes nothing. -/
theorem C6_pool_swap_pop_remove_witness :
    (c6Pool.remove 1).1 = true ∧
    ((c6Pool.remove 1).2).entities.size = c6Pool.entities.size - 1 ∧
    ((c6Pool.remove 1).2).entities.contains 1 = false ∧
    ((c6Pool.remove 1).2).entities.contains 4 = true ∧
    ((c6Pool.remove 1).2).get 4 = c6Pool.get 4 ∧
    c6Pool.remove 99 = (false, c6Pool) :=
  ⟨((C6_pool_swap_pop_remove c6Pool 1 (by decide) (by decide)).1
      (by decide)).1,
   ((C6_pool_swap_pop_remove c6Pool 1 (by decide) (by decide)).1
      (by decide)).2.1,
   ((C6_pool_swap_pop_remove c6Pool 1 (by decide) (by decide)).1
      (by decide)).2.2.1,
   (((C6_pool_swap_pop_remove c6Pool 1 (by decide) (by decide)).1
      (by decide)).2.2.2.2 4 (by decide) (by decide)).1,
   (((C6_pool_swap_pop_remove c6Pool 1 (by decide) (by decide)).1
      (by decide)).2.2.2.2 4 (by decide) (by decide)).2,
   (C6_pool_swap_pop_remove c6Pool 99 (by decide) (by decide)).2
     (by decide)⟩

/-! ## Support for the density-invariant claim: preservation of
well-formedness by every sparse-set operation. -/

theorem SparseSet.ensureCapacity_size (s : SparseSet) (n : Nat) :
    (s.ensureCapacity n).size = s.size := by
  unfold SparseSet.ensureCapacity
  split <;> rfl

theorem SparseSet.ensureCapacity_dense (s : SparseSet) (n : Nat) :
    (s.ensureCapacity n).dense = s.dense := by
  unfold SparseSet.ensureCapacity
  split <;> rfl

theorem SparseSet.ensureCapacity_length (s : SparseSet) (n : Nat) :
    n < (s.ensureCapacity n).sparse.length ∧
    s.sparse.length ≤ (s.ensureCapacity n).sparse.length := by
  unfold SparseSet.ensureCapacity
  split
  · next h =>
      constructor
      · show n < (s.sparse ++
          List.replicate (n + 1 - s.sparse.length) (-1)).length
        rw [List.length_append, List.length_replicate]
        omega
      · show s.sparse.length ≤ (s.sparse ++
          List.replicate (n + 1 - s.sparse.length) (-1)).length
        rw [List.length_append]
        omega
  · next h => exact ⟨by omega, le_refl _⟩

theorem getD_replicate_self {β : Type} (n : Nat) (a : β) (i : Nat) :
    (List.replicate n a).getD i a = a := by
  rcases Nat.lt_or_ge i n with h | h
  · rw [List.getD_eq_getElem _ _ (by simpa using h)]
    exact List.getElem_replicate a (by simpa using h)
  · rw [List.getD_eq_default]
    rw [List.length_replicate]
    exact h

/-- Growing the sparse array never changes what any slot reads (fresh
slots hold `-1`, also the out-of-range default). -/
theorem SparseSet.ensureCapacity_sparse_getD (s : SparseSet) (n i : Nat) :
    (s.ensureCapacity n).sparse.getD i (-1) = s.sparse.getD i (-1) := by
  unfold SparseSet.ensureCapacity
  split
  · next h =>
      show (s.sparse ++
        List.replicate (n + 1 - s.sparse.length) (-1)).getD i (-1) = _
      rcases Nat.lt_or_ge i s.sparse.length with h2 | h2
      · exact List.getD_append _ _ _ _ h2
      · rw [List.getD_append_right _ _ _ _ h2, getD_replicate_self,
          List.getD_eq_default _ _ h2]
  · rfl

theorem SparseSet.ensureCapacity_WF (s : SparseSet) (n : Nat) (h : s.WF) :
    (s.ensureCapacity n).WF := by
  constructor
  · rw [SparseSet.ensureCapacity_size, SparseSet.ensureCapacity_dense]
    exact h.1
  · intro i hi
    rw [SparseSet.ensureCapacity_size] at hi
    obtain ⟨hv, hil, hsp⟩ := h.2 i hi
    rw [SparseSet.ensureCapacity_dense]
    exact ⟨hv, lt_of_lt_of_le hil (s.ensureCapacity_length n).2,
      by rw [SparseSet.ensureCapacity_sparse_getD]; exact hsp⟩

/-- Growing the sparse array does not change containment. -/
theorem SparseSet.ensureCapacity_contains (s : SparseSet) (n : Nat)
    (x : Entity) : (s.ensureCapacity n).contains x = s.contains x := by
  cases hcx : s.contains x with
  | true =>
      obtain ⟨hv, hil, h0, hlt, hd⟩ := (s.contains_iff x).mp hcx
      apply (SparseSet.contains_iff _ _).mpr
      refine ⟨hv, ?_, ?_, ?_, ?_⟩
      · exact lt_of_lt_of_le hil (s.ensureCapacity_length n).2
      · rw [SparseSet.ensureCapacity_sparse_getD]
        exact h0
      · rw [SparseSet.ensureCapacity_sparse_getD,
          SparseSet.ensureCapacity_size]
        exact hlt
      · rw [SparseSet.ensureCapacity_sparse_getD,
          SparseSet.ensureCapacity_dense]
        exact hd
  | false =>
      rw [Bool.eq_false_iff]
      intro hcontra
      obtain ⟨hv, hil, h0, hlt, hd⟩ :=
        (SparseSet.contains_iff _ _).mp hcontra
      rw [SparseSet.ensureCapacity_sparse_getD] at h0
      rw [SparseSet.ensureCapacity_sparse_getD,
        SparseSet.ensureCapacity_size] at hlt
      rw [SparseSet.ensureCapacity_sparse_getD,
        SparseSet.ensureCapacity_dense] at hd
      have hil' : eIndex x < s.sparse.length := by
        by_contra hge
        rw [List.getD_eq_default _ _ (Nat.le_of_not_lt hge)] at h0
        omega
      have hsx : s.contains x = true :=
        (s.contains_iff x).mpr ⟨hv, hil', h0, hlt, hd⟩
      rw [hcx] at hsx
      exact Bool.noConfusion hsx

theorem SparseSet.getD_mem_data (s : SparseSet)
    (hlen : s.size ≤ s.dense.length) {k : Nat} (hk : k < s.size) :
    s.dense.getD k NullEntity ∈ s.data := by
  have hget : s.dense.get? k = some (s.dense.getD k NullEntity) :=
    get?_eq_some_getD _ (by omega)
  have htake : (s.dense.take s.size).get? k =
      some (s.dense.getD k NullEntity) := by
    rw [List.get?_take hk]
    exact hget
  exact List.get?_mem htake

/-- Insertion of an entity whose index is not already occupied by a
different entity preserves the invariant. -/
theorem SparseSet.insert_WF (s : SparseSet) (e : Entity) (hWF : s.WF)
    (hfresh : s.data.all
      (fun x => x == e || decide (eIndex x ≠ eIndex e)) = true) :
    ((s.insert e).2).WF := by
  unfold SparseSet.insert
  by_cases hval : eValid e = false
  · rw [if_pos hval]
    exact hWF
  · rw [if_neg hval]
    have hecWF := s.ensureCapacity_WF (eIndex e) hWF
    by_cases hcont : (s.ensureCapacity (eIndex e)).contains e = true
    · rw [if_pos hcont]
      exact hecWF
    · rw [if_neg hcont]
      have hlen1 : eIndex e < (s.ensureCapacity (eIndex e)).sparse.length :=
        (s.ensureCapacity_length (eIndex e)).1
      have hvalid : eValid e = true := by
        revert hval
        cases eValid e <;> simp
      have hvne : e ≠ NullEntity := by
        have := hvalid
        unfold eValid at this
        simpa using this
      constructor
      · show (s.ensureCapacity (eIndex e)).size + 1 ≤
          (if (s.ensureCapacity (eIndex e)).dense.length ≤
              (s.ensureCapacity (eIndex e)).size then
            (s.ensureCapacity (eIndex e)).dense ++ [e]
          else (s.ensureCapacity (eIndex e)).dense.set
            (s.ensureCapacity (eIndex e)).size e).length
        have h1 := hecWF.1
        split
        · next hle =>
            rw [List.length_append]
            simp only [List.length_singleton]
            omega
        · next hgt =>
            rw [List.length_set]
            omega
      · intro k hk
        have hk' : k < (s.ensureCapacity (eIndex e)).size + 1 := hk
        by_cases hke : k = (s.ensureCapacity (eIndex e)).size
        · have hgd : (if (s.ensureCapacity (eIndex e)).dense.length ≤
                (s.ensureCapacity (eIndex e)).size then
              (s.ensureCapacity (eIndex e)).dense ++ [e]
            else (s.ensureCapacity (eIndex e)).dense.set
              (s.ensureCapacity (eIndex e)).size e).getD k NullEntity = e := by
            split
            · next hle =>
                have hlen : (s.ensureCapacity (eIndex e)).dense.length =
                    (s.ensureCapacity (eIndex e)).size :=
                  le_antisymm hle hecWF.1
                rw [hke, ← hlen,
                  List.getD_append_right _ _ _ _ (le_refl _)]
                simp
            · next hgt =>
                rw [hke, getD_set_eq _ _ _ _ (by omega)]
          refine ⟨?_, ?_, ?_⟩
          · rw [hgd]
            exact hvne
          · rw [hgd]
            show eIndex e < ((s.ensureCapacity (eIndex e)).sparse.set
              (eIndex e) (((s.ensureCapacity (eIndex e)).size : Int))).length
            rw [List.length_set]
            exact hlen1
          · rw [hgd]
            show ((s.ensureCapacity (eIndex e)).sparse.set (eIndex e)
                (((s.ensureCapacity (eIndex e)).size : Int))).getD
                (eIndex e) (-1) = (k : Int)
            rw [getD_set_eq _ _ _ _ hlen1, hke]
        · have hks : k < (s.ensureCapacity (eIndex e)).size := by omega
          have hgd : (if (s.ensureCapacity (eIndex e)).dense.length ≤
                (s.ensureCapacity (eIndex e)).size then
              (s.ensureCapacity (eIndex e)).dense ++ [e]
            else (s.ensureCapacity (eIndex e)).dense.set
              (s.ensureCapacity (eIndex e)).size e).getD k NullEntity =
              (s.ensureCapacity (eIndex e)).dense.getD k NullEntity := by
            split
            · next hle =>
                exact List.getD_append _ _ _ _ (lt_of_lt_of_le hks hecWF.1)
            · next hgt =>
                exact getD_set_ne _ _ _ _ _ (fun hcon => hke hcon.symm)
          obtain ⟨hvk, hbk, hsk⟩ := hecWF.2 k hks
          have hxmem : (s.ensureCapacity (eIndex e)).dense.getD k
              NullEntity ∈ s.data := by
            rw [SparseSet.ensureCapacity_dense]
            apply s.getD_mem_data hWF.1
            rw [← s.ensureCapacity_size (eIndex e)]
            exact hks
          have hne_idx : eIndex ((s.ensureCapacity (eIndex e)).dense.getD k
              NullEntity) ≠ eIndex e := by
            have hall := List.all_eq_true.mp hfresh _ hxmem
            have hall2 : (s.ensureCapacity (eIndex e)).dense.getD k
                NullEntity = e ∨
                eIndex ((s.ensureCapacity (eIndex e)).dense.getD k
                  NullEntity) ≠ eIndex e := by
              simpa using hall
            rcases hall2 with hxe | hne
            · exfalso
              have hcx : s.contains e = true := by
                rw [← hxe]
                have hcd := @SparseSet.WF.contains_dense
                  (s.ensureCapacity (eIndex e)) hecWF k hks
                rw [s.ensureCapacity_contains (eIndex e)] at hcd
                exact hcd
              rw [← s.ensureCapacity_contains (eIndex e)] at hcx
              exact hcont hcx
            · exact hne
          refine ⟨?_, ?_, ?_⟩
          · rw [hgd]
            exact hvk
          · rw [hgd]
            show eIndex ((s.ensureCapacity (eIndex e)).dense.getD k
                NullEntity) < ((s.ensureCapacity (eIndex e)).sparse.set
                (eIndex e)
                (((s.ensureCapacity (eIndex e)).size : Int))).length
            rw [List.length_set]
            exact hbk
          · rw [hgd]
            show ((s.ensureCapacity (eIndex e)).sparse.set (eIndex e)
                (((s.ensureCapacity (eIndex e)).size : Int))).getD
                (eIndex ((s.ensureCapacity (eIndex e)).dense.getD k
                  NullEntity)) (-1) = (k : Int)
            rw [getD_set_ne _ _ _ _ _ (fun hcon => hne_idx hcon.symm)]
            exact hsk

theorem SparseSet.clear_WF (s : SparseSet) : (s.clear).WF := by
  constructor
  · show (0 : Nat) ≤ s.dense.length
    exact Nat.zero_le _
  · intro i hi
    have hi0 : i < 0 := hi
    exact absurd hi0 (Nat.not_lt_zero i)

/-- Bounds-checked dense swap preserves the invariant. -/
theorem SparseSet.swap_WF (s : SparseSet) (i j : Int) (hWF : s.WF) :
    (s.swap i j).WF := by
  unfold SparseSet.swap
  split
  · exact hWF
  · next hguard =>
      push_neg at hguard
      obtain ⟨hi0, hilt, hj0, hjlt⟩ := hguard
      have hilt' : i.toNat < s.size := by omega
      have hjlt' : j.toNat < s.size := by omega
      have hia : ((i.toNat : Nat) : Int) = i := Int.toNat_of_nonneg hi0
      have hja : ((j.toNat : Nat) : Int) = j := Int.toNat_of_nonneg hj0
      have hdl : s.size ≤ s.dense.length := hWF.1
      obtain ⟨hvI, hbI, hsI⟩ := hWF.2 i.toNat hilt'
      obtain ⟨hvJ, hbJ, hsJ⟩ := hWF.2 j.toNat hjlt'
      by_cases hab : i.toNat = j.toNat
      · have hij : i = j := by omega
        subst hij
        constructor
        · show s.size ≤ ((s.dense.set i.toNat
            (s.dense.getD i.toNat NullEntity)).set i.toNat
            (s.dense.getD i.toNat NullEntity)).length
          rw [List.length_set, List.length_set]
          exact hWF.1
        · intro k hk
          have hk' : k < s.size := hk
          obtain ⟨hvk, hbk, hsk⟩ := hWF.2 k hk'
          have hgdk : ((s.dense.set i.toNat
              (s.dense.getD i.toNat NullEntity)).set i.toNat
              (s.dense.getD i.toNat NullEntity)).getD k NullEntity =
              s.dense.getD k NullEntity := by
            by_cases hki : k = i.toNat
            · subst hki
              rw [getD_set_eq _ _ _ _ (by rw [List.length_set]; omega)]
            · rw [getD_set_ne _ _ _ _ _ (fun hcon => hki hcon.symm),
                getD_set_ne _ _ _ _ _ (fun hcon => hki hcon.symm)]
          refine ⟨?_, ?_, ?_⟩
          · rw [hgdk]
            exact hvk
          · show eIndex (((s.dense.set i.toNat
                (s.dense.getD i.toNat NullEntity)).set i.toNat
                (s.dense.getD i.toNat NullEntity)).getD k NullEntity) <
              ((s.sparse.set (eIndex (s.dense.getD i.toNat NullEntity))
                  i).set (eIndex (s.dense.getD i.toNat NullEntity))
                  i).length
            rw [hgdk, List.length_set, List.length_set]
            exact hbk
          · show ((s.sparse.set (eIndex (s.dense.getD i.toNat NullEntity))
                i).set (eIndex (s.dense.getD i.toNat NullEntity)) i).getD
                (eIndex (((s.dense.set i.toNat
                  (s.dense.getD i.toNat NullEntity)).set i.toNat
                  (s.dense.getD i.toNat NullEntity)).getD k NullEntity))
                (-1) = (k : Int)
            rw [hgdk]
            by_cases hkidx : eIndex (s.dense.getD k NullEntity) =
                eIndex (s.dense.getD i.toNat NullEntity)
            · have hki : k = i.toNat := hWF.index_eq hk' hilt' hkidx
              rw [hkidx, getD_set_eq _ _ _ _
                (by rw [List.length_set]; exact hbI)]
              rw [hki, hia]
            · rw [getD_set_ne _ _ _ _ _ (fun hcon => hkidx hcon.symm),
                getD_set_ne _ _ _ _ _ (fun hcon => hkidx hcon.symm)]
              exact hsk
      · have hIJidx : eIndex (s.dense.getD i.toNat NullEntity) ≠
            eIndex (s.dense.getD j.toNat NullEntity) := by
          intro hcon
          exact hab (hWF.index_eq hilt' hjlt' hcon)
        constructor
        · show s.size ≤ ((s.dense.set i.toNat
            (s.dense.getD j.toNat NullEntity)).set j.toNat
            (s.dense.getD i.toNat NullEntity)).length
          rw [List.length_set, List.length_set]
          exact hWF.1
        · intro k hk
          have hk' : k < s.size := hk
          obtain ⟨hvk, hbk, hsk⟩ := hWF.2 k hk'
          by_cases hkj : k = j.toNat
          · subst hkj
            have hgdk : ((s.dense.set i.toNat
                (s.dense.getD j.toNat NullEntity)).set j.toNat
                (s.dense.getD i.toNat NullEntity)).getD j.toNat NullEntity =
                s.dense.getD i.toNat NullEntity := by
              rw [getD_set_eq _ _ _ _ (by rw [List.length_set]; omega)]
            refine ⟨?_, ?_, ?_⟩
            · rw [hgdk]
              exact hvI
            · show eIndex (((s.dense.set i.toNat
                  (s.dense.getD j.toNat NullEntity)).set j.toNat
                  (s.dense.getD i.toNat NullEntity)).getD j.toNat
                  NullEntity) <
                ((s.sparse.set (eIndex (s.dense.getD i.toNat NullEntity))
                    j).set (eIndex (s.dense.getD j.toNat NullEntity))
                    i).length
              rw [hgdk, List.length_set, List.length_set]
              exact hbI
            · show ((s.sparse.set (eIndex (s.dense.getD i.toNat NullEntity))
                  j).set (eIndex (s.dense.getD j.toNat NullEntity)) i).getD
                  (eIndex (((s.dense.set i.toNat
                    (s.dense.getD j.toNat NullEntity)).set j.toNat
                    (s.dense.getD i.toNat NullEntity)).getD j.toNat
                    NullEntity)) (-1) = ((j.toNat : Nat) : Int)
              rw [hgdk,
                getD_set_ne _ _ _ _ _ (fun hcon => hIJidx hcon.symm),
                getD_set_eq _ _ _ _ hbI, hja]
          · by_cases hki : k = i.toNat
            · subst hki
              have hgdk : ((s.dense.set i.toNat
                  (s.dense.getD j.toNat NullEntity)).set j.toNat
                  (s.dense.getD i.toNat NullEntity)).getD i.toNat
                  NullEntity = s.dense.getD j.toNat NullEntity := by
                rw [getD_set_ne _ _ _ _ _ (fun hcon => hkj hcon.symm),
                  getD_set_eq _ _ _ _ (by omega)]
              refine ⟨?_, ?_, ?_⟩
              · rw [hgdk]
                exact hvJ
              · show eIndex (((s.dense.set i.toNat
                    (s.dense.getD j.toNat NullEntity)).set j.toNat
                    (s.dense.getD i.toNat NullEntity)).getD i.toNat
                    NullEntity) <
                  ((s.sparse.set (eIndex (s.dense.getD i.toNat NullEntity))
                      j).set (eIndex (s.dense.getD j.toNat NullEntity))
                      i).length
                rw [hgdk, List.length_set, List.length_set]
                exact hbJ
              · show ((s.sparse.set
                    (eIndex (s.dense.getD i.toNat NullEntity)) j).set
                    (eIndex (s.dense.getD j.toNat NullEntity)) i).getD
                    (eIndex (((s.dense.set i.toNat
                      (s.dense.getD j.toNat NullEntity)).set j.toNat
                      (s.dense.getD i.toNat NullEntity)).getD i.toNat
                      NullEntity)) (-1) = ((i.toNat : Nat) : Int)
                rw [hgdk, getD_set_eq _ _ _ _
                  (by rw [List.length_set]; exact hbJ), hia]
            · have hgdk : ((s.dense.set i.toNat
                  (s.dense.getD j.toNat NullEntity)).set j.toNat
                  (s.dense.getD i.toNat NullEntity)).getD k NullEntity =
                  s.dense.getD k NullEntity := by
                rw [getD_set_ne _ _ _ _ _ (fun hcon => hkj hcon.symm),
                  getD_set_ne _ _ _ _ _ (fun hcon => hki hcon.symm)]
              have hkIidx : eIndex (s.dense.getD k NullEntity) ≠
                  eIndex (s.dense.getD i.toNat NullEntity) := by
                intro hcon
                exact hki (hWF.index_eq hk' hilt' hcon)
              have hkJidx : eIndex (s.dense.getD k NullEntity) ≠
                  eIndex (s.dense.getD j.toNat NullEntity) := by
                intro hcon
                exact hkj (hWF.index_eq hk' hjlt' hcon)
              refine ⟨?_, ?_, ?_⟩
              · rw [hgdk]
                exact hvk
              · show eIndex (((s.dense.set i.toNat
                    (s.dense.getD j.toNat NullEntity)).set j.toNat
                    (s.dense.getD i.toNat NullEntity)).getD k NullEntity) <
                  ((s.sparse.set (eIndex (s.dense.getD i.toNat NullEntity))
                      j).set (eIndex (s.dense.getD j.toNat NullEntity))
                      i).length
                rw [hgdk, List.length_set, List.length_set]
                exact hbk
              · show ((s.sparse.set
                    (eIndex (s.dense.getD i.toNat NullEntity)) j).set
                    (eIndex (s.dense.getD j.toNat NullEntity)) i).getD
                    (eIndex (((s.dense.set i.toNat
                      (s.dense.getD j.toNat NullEntity)).set j.toNat
                      (s.dense.getD i.toNat NullEntity)).getD k
                      NullEntity)) (-1) = (k : Int)
                rw [hgdk,
                  getD_set_ne _ _ _ _ _ (fun hcon => hkJidx hcon.symm),
                  getD_set_ne _ _ _ _ _ (fun hcon => hkIidx hcon.symm)]
                exact hsk

theorem SparseSet.sortStep_WF (less : Entity → Entity → Bool)
    (s : SparseSet) (j : Nat) (hWF : s.WF) : (s.sortStep less j).WF := by
  unfold SparseSet.sortStep
  split
  · exact s.swap_WF _ _ hWF
  · exact hWF

theorem foldl_WF {β : Type} (f : SparseSet → β → SparseSet)
    (hf : ∀ t x, t.WF → (f t x).WF) :
    ∀ (l : List β) (s : SparseSet), s.WF → (l.foldl f s).WF := by
  intro l
  induction l with
  | nil => intro s h; exact h
  | cons x rest ih =>
      intro s h
      rw [List.foldl_cons]
      exact ih _ (hf s x h)

theorem SparseSet.sortAll_WF (s : SparseSet)
    (less : Entity → Entity → Bool) (hWF : s.WF) :
    (s.sortAll less).WF := by
  unfold SparseSet.sortAll
  exact foldl_WF _
    (fun t i hi => foldl_WF _ (fun u j hj => u.sortStep_WF less j hj) _ t hi)
    _ s hWF

/-! #### Respect preserves the invariant -/

theorem getD_take {β : Type} (l : List β) (n i : Nat) (d : β) (h : i < n) :
    (l.take n).getD i d = l.getD i d := by
  rw [List.getD_eq_getD_get?, List.getD_eq_getD_get?, List.get?_take h]

/-- Every member of `Data()` sits at some dense position below `size`. -/
theorem SparseSet.mem_data_pos (s : SparseSet) {x : Entity}
    (hx : x ∈ s.data) : ∃ i, i < s.size ∧ s.dense.getD i NullEntity = x := by
  obtain ⟨i, hget⟩ := List.mem_iff_get?.mp hx
  obtain ⟨hlt, _⟩ := List.get?_eq_some.mp hget
  have hlt' : i < s.size := by
    rw [SparseSet.data, List.length_take] at hlt
    omega
  refine ⟨i, hlt', ?_⟩
  have h3 : (s.dense.take s.size).get? i = some x := hget
  rw [List.get?_take hlt'] at h3
  rw [List.getD_eq_getD_get?, h3]
  rfl

/-- For a well-formed set, `Data()` lists each entity at most once. -/
theorem SparseSet.WF.nodup_data {s : SparseSet} (h : s.WF) :
    s.data.Nodup := by
  have hlen : s.data.length = s.size := by
    rw [SparseSet.data, List.length_take]
    have := h.1
    omega
  rw [List.nodup_iff_injective_get]
  intro a b hab
  have key : ∀ c : Fin s.data.length,
      s.data.get c = s.dense.getD c.1 NullEntity := by
    intro c
    have hc : c.1 < s.size := by
      have := c.2
      omega
    have h3 : (s.dense.take s.size).get? c.1 = some (s.data.get c) :=
      List.get?_eq_get c.2
    rw [List.get?_take hc] at h3
    rw [List.getD_eq_getD_get?, h3]
    rfl
  rw [key a, key b] at hab
  have ha : (a : Nat) < s.size := by have := a.2; omega
  have hb : (b : Nat) < s.size := by have := b.2; omega
  exact Fin.ext (h.dense_inj ha hb hab)

/-- The dedup-append fold keeps a duplicate-free accumulator
duplicate-free. -/
theorem nodup_dedupAppend (xs : List Entity) :
    ∀ acc : List Entity, acc.Nodup →
      (xs.foldl (fun a x => if a.contains x then a else a ++ [x]) acc).Nodup := by
  induction xs with
  | nil => intro acc h; exact h
  | cons x rest ih =>
      intro acc h
      rw [List.foldl_cons]
      by_cases hc : acc.contains x
      · rw [if_pos hc]
        exact ih _ h
      · rw [if_neg hc]
        refine ih _ ?_
        rw [List.nodup_append]
        refine ⟨h, List.nodup_singleton x, ?_⟩
        intro a ha hax
        have hax' : a = x := by simpa using hax
        rw [hax'] at ha
        exact hc (by simpa using ha)

/-- Membership in the reordered dense list is membership in `Data()`. -/
theorem mem_newDense (s other : SparseSet) (hdl : s.size ≤ s.dense.length)
    (y : Entity) : y ∈ newDense s other ↔ y ∈ s.data := by
  unfold newDense
  rw [mem_dedupAppend]
  constructor
  · rintro (h | h)
    · exact s.contains_mem y hdl (List.mem_filter.mp h).2
    · exact h
  · exact Or.inr

/-- If a well-formed set holds a duplicate-free list of its own entities,
their 20-bit indices are pairwise distinct. -/
theorem pairwise_eIndex_of_subset (s : SparseSet) (hWF : s.WF)
    (l : List Entity) (hnd : l.Nodup) (hsub : ∀ x ∈ l, x ∈ s.data) :
    l.Pairwise (fun x y => eIndex x ≠ eIndex y) := by
  refine List.Pairwise.imp_of_mem ?_ hnd
  intro a b ha hb hne hcon
  obtain ⟨ia, hia, hga⟩ := s.mem_data_pos (hsub a ha)
  obtain ⟨ib, hib, hgb⟩ := s.mem_data_pos (hsub b hb)
  have hidx : eIndex (s.dense.getD ia NullEntity) =
      eIndex (s.dense.getD ib NullEntity) := by
    rw [hga, hgb]
    exact hcon
  have hii : ia = ib := hWF.index_eq hia hib hidx
  exact hne (by rw [← hga, ← hgb, hii])

theorem enumFrom_snd_mem {β : Type} :
    ∀ (l : List β) (n : Nat) (p : Nat × β),
      p ∈ List.enumFrom n l → p.2 ∈ l := by
  intro l
  induction l with
  | nil => intro n p hp; exact absurd hp (by simp)
  | cons x rest ih =>
      intro n p hp
      have hcons : List.enumFrom n (x :: rest) =
          (n, x) :: List.enumFrom (n + 1) rest := rfl
      rw [hcons] at hp
      rcases List.mem_cons.mp hp with h | h
      · rw [h]
        exact List.mem_cons_self _ _
      · exact List.mem_cons_of_mem _ (ih (n + 1) p h)

theorem reindex_length :
    ∀ (l : List (Nat × Entity)) (sp : List Int),
      (l.foldl (fun sp p => sp.set (eIndex p.2) ((p.1 : Int))) sp).length =
        sp.length := by
  intro l
  induction l with
  | nil => intro sp; rfl
  | cons x rest ih =>
      intro sp
      rw [List.foldl_cons, ih]
      simp

theorem reindex_getD_other :
    ∀ (l : List (Nat × Entity)) (sp : List Int) (i : Nat),
      (∀ p ∈ l, eIndex p.2 ≠ i) →
      (l.foldl (fun sp p => sp.set (eIndex p.2) ((p.1 : Int))) sp).getD i
        (-1) = sp.getD i (-1) := by
  intro l
  induction l with
  | nil => intro sp i _; rfl
  | cons x rest ih =>
      intro sp i hall
      rw [List.foldl_cons,
        ih _ _ (fun p hp => hall p (List.mem_cons_of_mem _ hp))]
      show (sp.set (eIndex x.2) ((x.1 : Int))).getD i (-1) = sp.getD i (-1)
      exact getD_set_ne _ _ _ _ _ (hall x (List.mem_cons_self _ _))

/-- Walking an enumerated, index-disjoint entity list and writing each
position into the sparse array makes the sparse entry of the `j`-th
entity `k + j`. -/
theorem reindex_getD :
    ∀ (l : List Entity) (k : Nat) (sp : List Int),
      l.Pairwise (fun x y => eIndex x ≠ eIndex y) →
      (∀ x ∈ l, eIndex x < sp.length) →
      ∀ j, j < l.length →
      ((List.enumFrom k l).foldl
          (fun sp p => sp.set (eIndex p.2) ((p.1 : Int))) sp).getD
        (eIndex (l.getD j NullEntity)) (-1) = ((k + j : Nat) : Int) := by
  intro l
  induction l with
  | nil => intro k sp _ _ j hj; exact absurd hj (by simp)
  | cons x rest ih =>
      intro k sp hp hb j hj
      have hcons : List.enumFrom k (x :: rest) =
          (k, x) :: List.enumFrom (k + 1) rest := rfl
      rw [hcons, List.foldl_cons]
      have hp' := List.pairwise_cons.mp hp
      cases j with
      | zero =>
          have hother : ∀ p ∈ List.enumFrom (k + 1) rest,
              eIndex p.2 ≠ eIndex x := by
            intro p hpm hcon
            exact hp'.1 p.2 (enumFrom_snd_mem rest (k + 1) p hpm) hcon.symm
          show ((List.enumFrom (k + 1) rest).foldl
              (fun sp p => sp.set (eIndex p.2) ((p.1 : Int)))
              (sp.set (eIndex x) ((k : Int)))).getD (eIndex x) (-1) =
            ((k + 0 : Nat) : Int)
          rw [reindex_getD_other _ _ _ hother,
            getD_set_eq _ _ _ _ (hb x (List.mem_cons_self _ _))]
          simp
      | succ j' =>
          have hb' : ∀ y ∈ rest,
              eIndex y < (sp.set (eIndex x) ((k : Int))).length := by
            intro y hy
            rw [List.length_set]
            exact hb y (List.mem_cons_of_mem _ hy)
          have hj' : j' < rest.length := by
            rw [List.length_cons] at hj
            omega
          have hkey := ih (k + 1) (sp.set (eIndex x) ((k : Int)))
            hp'.2 hb' j' hj'
          show ((List.enumFrom (k + 1) rest).foldl
              (fun sp p => sp.set (eIndex p.2) ((p.1 : Int)))
              (sp.set (eIndex x) ((k : Int)))).getD
              (eIndex (rest.getD j' NullEntity)) (-1) =
            ((k + (j' + 1) : Nat) : Int)
          rw [hkey]
          congr 1
          omega

/-- `Respect` preserves the invariant when the other set's data is
duplicate-free. -/
theorem SparseSet.respect_WF (s other : SparseSet) (hWF : s.WF)
    (hnd : other.data.Nodup) : (s.respect other).WF := by
  unfold SparseSet.respect
  split
  · exact hWF
  · have hdl : s.size ≤ s.dense.length := hWF.1
    have hdatalen : s.data.length = s.size := by
      rw [SparseSet.data, List.length_take]
      omega
    have hndnd : (newDense s other).Nodup := by
      unfold newDense
      exact nodup_dedupAppend _ _ (hnd.filter _)
    have hmem : ∀ y, y ∈ newDense s other ↔ y ∈ s.data :=
      fun y => mem_newDense s other hdl y
    have hperm : (newDense s other).Perm s.data :=
      (List.perm_ext_iff_of_nodup hndnd hWF.nodup_data).mpr hmem
    have hndlen : (newDense s other).length = s.size := by
      rw [hperm.length_eq, hdatalen]
    have htake : (newDense s other).take s.dense.length = newDense s other :=
      List.take_of_length_le (by omega)
    constructor
    · show s.size ≤ ((newDense s other).take s.dense.length ++
        s.dense.drop (newDense s other).length).length
      rw [List.length_append, htake, List.length_drop]
      omega
    · intro i hi
      have hi' : i < s.size := hi
      have hilen : i < (newDense s other).length := by
        rw [hndlen]
        exact hi'
      have hdget : ((newDense s other).take s.dense.length ++
          s.dense.drop (newDense s other).length).getD i NullEntity =
          (newDense s other).getD i NullEntity := by
        rw [htake, List.getD_eq_getD_get?, List.getD_eq_getD_get?,
          List.get?_append hilen]
      have hxmem : (newDense s other).getD i NullEntity ∈ newDense s other :=
        List.get?_mem (get?_eq_some_getD NullEntity hilen)
      have hxdata : (newDense s other).getD i NullEntity ∈ s.data :=
        (hmem _).mp hxmem
      obtain ⟨i0, hi0, hxd⟩ := s.mem_data_pos hxdata
      obtain ⟨hv0, hb0, _⟩ := hWF.2 i0 hi0
      rw [hxd] at hv0 hb0
      have hsplen : (((newDense s other).enum).foldl
          (fun sp p => sp.set (eIndex p.2) ((p.1 : Int))) s.sparse).length =
          s.sparse.length := reindex_length _ _
      have hpw : (newDense s other).Pairwise
          (fun a b => eIndex a ≠ eIndex b) :=
        pairwise_eIndex_of_subset s hWF _ hndnd (fun y hy => (hmem y).mp hy)
      have hbnd : ∀ y ∈ newDense s other, eIndex y < s.sparse.length := by
        intro y hy
        obtain ⟨j0, hj0, hyd⟩ := s.mem_data_pos ((hmem y).mp hy)
        have hj2 := (hWF.2 j0 hj0).2.1
        rw [hyd] at hj2
        exact hj2
      have hsget := reindex_getD (newDense s other) 0 s.sparse hpw hbnd i hilen
      refine ⟨?_, ?_, ?_⟩
      · show ((newDense s other).take s.dense.length ++
            s.dense.drop (newDense s other).length).getD i NullEntity ≠
            NullEntity
        rw [hdget]
        exact hv0
      · show eIndex (((newDense s other).take s.dense.length ++
            s.dense.drop (newDense s other).length).getD i NullEntity) <
            (((newDense s other).enum).foldl
              (fun sp p => sp.set (eIndex p.2) ((p.1 : Int)))
              s.sparse).length
        rw [hdget, hsplen]
        exact hb0
      · show (((newDense s other).enum).foldl
            (fun sp p => sp.set (eIndex p.2) ((p.1 : Int))) s.sparse).getD
            (eIndex (((newDense s other).take s.dense.length ++
              s.dense.drop (newDense s other).length).getD i NullEntity))
            (-1) = (i : Int)
        rw [hdget]
        have hsget' : (((newDense s other).enum).foldl
            (fun sp p => sp.set (eIndex p.2) ((p.1 : Int))) s.sparse).getD
            (eIndex ((newDense s other).getD i NullEntity)) (-1) =
            ((0 + i : Nat) : Int) := hsget
        rw [hsget']
        simp

/-! #### Operation sequences over a sparse set (claim C3) -/

/-- The empty set satisfies the invariant. -/
theorem SparseSet.new_WF : SparseSet.new.WF := by
  constructor
  · show (0 : Nat) ≤ ([] : List Entity).length
    exact Nat.zero_le _
  · intro i hi
    exact absurd hi (Nat.not_lt_zero i)

/-- One public mutating sparse-set operation, as the claim enumerates
them. -/
inductive SSOp where
  | insertOp : Entity → SSOp
  | removeOp : Entity → SSOp
  | clearOp : SSOp
  | swapOp : Int → Int → SSOp
  | sortOp : (Entity → Entity → Bool) → SSOp
  | respectOp : SparseSet → SSOp

def SSOp.apply (s : SparseSet) : SSOp → SparseSet
  | SSOp.insertOp e => (s.insert e).2
  | SSOp.removeOp e => (s.remove e).2
  | SSOp.clearOp => s.clear
  | SSOp.swapOp i j => s.swap i j
  | SSOp.sortOp less => s.sortAll less
  | SSOp.respectOp other => s.respect other

/-- Run a sequence of operations from the empty set. -/
def runOps (ops : List SSOp) : SparseSet :=
  ops.foldl SSOp.apply SparseSet.new

/-- The precondition under which an operation keeps the set well-formed:
an inserted entity must not collide in index with a different resident
entity, and `Respect`'s argument must hold no duplicates.  The other
operations are unconditional. -/
def okOp (s : SparseSet) : SSOp → Bool
  | SSOp.insertOp e =>
      s.data.all (fun x => x == e || decide (eIndex x ≠ eIndex e))
  | SSOp.respectOp other => decide other.data.Nodup
  | _ => true

def goodOps : SparseSet → List SSOp → Bool
  | _, [] => true
  | s, op :: rest => okOp s op && goodOps (SSOp.apply s op) rest

/-- The property claim C3 states: no duplicates among `dense[0..size)` and
every dense entry's sparse slot points back at its position. -/
def densityInvariant (s : SparseSet) : Prop :=
  (s.dense.take s.size).Nodup ∧
  ∀ i, i < s.size →
    s.sparse.getD (eIndex (s.dense.getD i NullEntity)) (-1) = (i : Int)

instance (s : SparseSet) : Decidable (densityInvariant s) := by
  unfold densityInvariant
  infer_instance

theorem WF_densityInvariant (s : SparseSet) (h : s.WF) :
    densityInvariant s := by
  constructor
  · exact h.nodup_data
  · intro i hi
    exact (h.2 i hi).2.2

theorem apply_WF (s : SparseSet) (op : SSOp) (hWF : s.WF)
    (hok : okOp s op = true) : (SSOp.apply s op).WF := by
  cases op with
  | insertOp e => exact s.insert_WF e hWF hok
  | removeOp e => exact s.remove_WF e hWF
  | clearOp => exact s.clear_WF
  | swapOp i j => exact s.swap_WF i j hWF
  | sortOp less => exact s.sortAll_WF less hWF
  | respectOp other => exact s.respect_WF other hWF (of_decide_eq_true hok)

theorem foldl_apply_WF (ops : List SSOp) :
    ∀ s : SparseSet, s.WF → goodOps s ops = true →
      (ops.foldl SSOp.apply s).WF := by
  induction ops with
  | nil => intro s h _; exact h
  | cons op rest ih =>
      intro s h hg
      have hg' : okOp s op = true ∧
          goodOps (SSOp.apply s op) rest = true := by
        simpa [goodOps] using hg
      rw [List.foldl_cons]
      exact ih _ (apply_WF s op h hg'.1) hg'.2

/-- C3 (counterexample): the claim fails as stated.  From the empty set,
`Insert(Entity(0.0))`, `Insert(Entity(0.1))` (same 20-bit index,
different generation), `Insert(Entity(0.0))` is a sequence of the listed
operations after which `dense[0..size)` holds `Entity(0.0)` twice and
`sparse[dense[0].Index()] = 2 ≠ 0`: `Insert`'s containment check compares
the full handle, so a second entity with a resident index is appended and
the shared sparse slot is repointed, stranding the first entry. -/
theorem C3_density_invariant_counterexample :
    ¬ densityInvariant (runOps
      [SSOp.insertOp 0, SSOp.insertOp 1048576, SSOp.insertOp 0]) := by
  decide

/-- C3 (amended): after any finite sequence of the listed operations
starting from the empty set, in which every inserted entity is
index-fresh (no resident entity shares its 20-bit index unless it is the
same handle) and every `Respect` argument has duplicate-free data,
`dense[0..size)` has no duplicates and `sparse[dense[i].Index()] = i` for
every `i < size`. -/
theorem C3_density_invariant_amended (ops : List SSOp)
    (h : goodOps SparseSet.new ops = true) :
    densityInvariant (runOps ops) :=
  WF_densityInvariant _
    (foldl_apply_WF ops SparseSet.new SparseSet.new_WF h)

theorem C3_density_invariant_amended_witness :
    goodOps SparseSet.new
      [SSOp.insertOp 0, SSOp.removeOp 0, SSOp.insertOp 1048576] = true ∧
    densityInvariant (runOps
      [SSOp.insertOp 0, SSOp.removeOp 0, SSOp.insertOp 1048576]) :=
  ⟨by decide, C3_density_invariant_amended _ (by decide)⟩
